import Mathlib

/-!
Verification development for the repository that reproduces the imbalanced-data
experiments of the Representation Jensen-Renyi Divergence paper.

The notebook code is shallowly embedded: matrices are lists of rows of
rationals, the external numerical collaborators (the divergence gradient
produced by automatic differentiation, the scalar Adam update rule of torch,
the pandas table reader, sklearn scaler statistics, pairwise distances, the
seeded permutation of train_test_split, grid search, SVC probabilities and
roc_auc_score) are fields of an environment record, and all control flow,
shapes, label handling and numpy helpers are modelled concretely.
-/

namespace RJRD

/-- A matrix is a list of rows of rationals. -/
abbrev Mat := List (List ℚ)

/-- Row count, mirroring shape zero of a numpy array. -/
def mat_rows (M : Mat) : ℕ := M.length

/-- Column count as read from the first row, mirroring shape one. -/
def mat_shape1 (M : Mat) : ℕ := (M.headD []).length

/-- The list of row lengths, used to compare shapes of (possibly ragged) matrices. -/
def mat_shape (M : Mat) : List ℕ := M.map List.length

/-- Entry access with out-of-bounds default zero. -/
def mat_get (M : Mat) (i j : ℕ) : ℚ := (M.getD i []).getD j 0

/-- A matrix of zeros of the same shape, mirroring torch zeros_like. -/
def mat_zeros_like (M : Mat) : Mat := M.map (fun r => r.map (fun _ => (0 : ℚ)))

/-- Map over a row with the running column index. -/
def idxMapFrom (f : ℕ → ℚ → ℚ) : ℕ → List ℚ → List ℚ
  | _, [] => []
  | j, x :: xs => f j x :: idxMapFrom f (j + 1) xs

/-- Map over the rows of a matrix with the running row index. -/
def rowsMapIdx (f : ℕ → List ℚ → List ℚ) : ℕ → Mat → Mat
  | _, [] => []
  | i, r :: rs => f i r :: rowsMapIdx f (i + 1) rs

/-- Entrywise map with indices, the shape-preserving elementwise update used to
model the in-place tensor operations of torch. -/
def mat_mapIdx (f : ℕ → ℕ → ℚ → ℚ) (M : Mat) : Mat :=
  rowsMapIdx (fun i r => idxMapFrom (fun j x => f i j x) 0 r) 0 M

/-- Model of numpy random uniform over a half-open interval: the ambient global
random state is a stream of draws in the unit interval, consumed from a running
offset; entry i j of the result uses draw number off + i * c + j. -/
def np_uniform (stream : ℕ → ℚ) (off : ℕ) (lo hi : ℚ) (r c : ℕ) : Mat :=
  (List.range r).map (fun i => (List.range c).map (fun j => lo + (hi - lo) * stream (off + i * c + j)))

/-- Model of numpy zeros for one-dimensional arrays. -/
def np_zeros (n : ℕ) : List ℚ := List.replicate n 0

/-- Model of numpy linspace with the endpoint included. -/
def np_linspace (a b : ℚ) (n : ℕ) : List ℚ :=
  if n = 0 then []
  else if n = 1 then [a]
  else (List.range n).map (fun (i : ℕ) => a + (i : ℚ) * ((b - a) / ((n : ℚ) - 1)))

/-- Model of numpy argmax: index of the first occurrence of the maximum. -/
def np_argmax {α : Type} [LinearOrder α] : List α → ℕ
  | [] => 0
  | [_] => 0
  | x :: y :: xs =>
    let k := np_argmax (y :: xs)
    if x < (y :: xs).getD k x then k + 1 else 0

/-- Model of numpy argmin: index of the first occurrence of the minimum. -/
def np_argmin {α : Type} [LinearOrder α] : List α → ℕ
  | [] => 0
  | [_] => 0
  | x :: y :: xs =>
    let k := np_argmin (y :: xs)
    if (y :: xs).getD k x < x then k + 1 else 0

/-- Model of numpy bincount on nonnegative integer labels. -/
def np_bincount (l : List ℤ) : List ℕ :=
  match l with
  | [] => []
  | _ =>
    let mx := l.foldr (fun z acc => max acc z.toNat) 0
    (List.range (mx + 1)).map (fun k => l.count (k : ℤ))

/-- Model of numpy nanmedian of a matrix: the median of the flattened entries
(rational entries carry no NaN, so nanmedian and median coincide). -/
def np_nanmedian (M : Mat) : ℚ :=
  let l := M.foldr (fun r acc => r ++ acc) []
  let s := List.insertionSort (fun a b => a ≤ b) l
  let n := s.length
  if n = 0 then 0
  else if n % 2 = 1 then s.getD (n / 2) 0
  else (s.getD (n / 2 - 1) 0 + s.getD (n / 2) 0) / 2

/-- A cell of a pandas data frame read from a KEEL file: either a numeric value
or a leftover string (such as the class label column). -/
inductive Cell where
  | num (q : ℚ)
  | str (s : String)
deriving DecidableEq

/-- Whether a cell is numeric. -/
def cellIsNum : Cell → Bool
  | .num _ => true
  | .str _ => false

/-- Numeric value of a cell, zero for strings. -/
def cellVal : Cell → ℚ
  | .num q => q
  | .str _ => 0

/-- Model of the pandas get_numeric_data accessor: keep the columns whose cells
are all numeric, in order, as a rational matrix. -/
def df_numeric_data (rows : List (List Cell)) : Mat :=
  (((List.transpose rows).filter (fun col => col.all cellIsNum)).map (fun col => col.map cellVal)).transpose

/-- The last column of a data frame, mirroring iloc with index minus one. -/
def last_labels (rows : List (List Cell)) : List Cell :=
  rows.map (fun r => (r.getLast?).getD (Cell.num 0))

/-- The label replacement performed on the last column: the exact strings with
a leading space are mapped to one and zero, every other cell is untouched. -/
def label_map (c : Cell) : Cell :=
  if c = Cell.str (" positive") then Cell.num 1
  else if c = Cell.str (" negative") then Cell.num 0
  else c

/-- Digit-string parser backing the python int conversion. -/
def parseDigits : List Char → Option ℕ
  | [] => none
  | cs =>
    if cs.all Char.isDigit then
      some (cs.foldl (fun a c => 10 * a + (c.toNat - 48)) 0)
    else none

/-- Strip leading and trailing whitespace from a character list. -/
def stripWs (cs : List Char) : List Char :=
  ((cs.dropWhile Char.isWhitespace).reverse.dropWhile Char.isWhitespace).reverse

/-- Model of the python int conversion of a string: surrounding whitespace is
stripped, an optional sign is allowed, and the rest must be digits. -/
def str_to_int (s : String) : Option ℤ :=
  match stripWs s.toList with
  | '-' :: rest => (parseDigits rest).map (fun n => -(n : ℤ))
  | '+' :: rest => (parseDigits rest).map (fun n => (n : ℤ))
  | cs => (parseDigits cs).map (fun n => (n : ℤ))

/-- Truncation toward zero, the numpy astype conversion from float to int. -/
def rat_trunc (q : ℚ) : ℤ :=
  if 0 ≤ q.num then ((q.num.toNat / q.den : ℕ) : ℤ)
  else -(((-q.num).toNat / q.den : ℕ) : ℤ)

/-- Conversion of one label cell by astype int: numeric cells truncate, string
cells go through the python int parser and fail when they do not parse. -/
def cell_astype_int : Cell → Option ℤ
  | .num q => some (rat_trunc q)
  | .str s => str_to_int s

/-- Conversion of a whole label column, failing when any cell fails. -/
def labels_astype : List Cell → Option (List ℤ)
  | [] => some []
  | c :: cs =>
    match cell_astype_int c, labels_astype cs with
    | some z, some zs => some (z :: zs)
    | _, _ => none

/-- Environment of external collaborators: every numerical or randomized
library call that the notebook delegates is a field here, so the embedded
program is a deterministic function of this record. -/
structure Ext where
  stream : ℕ → ℚ
  divGrad : Mat → Mat → ℚ → ℚ → Bool → Option ℕ → ℕ → ℕ → ℚ
  adamUpd : ℚ → ℕ → ℚ → ℚ → ℚ → ℚ → ℚ × ℚ × ℚ
  readTable : String → List (List Cell)
  scalerParams : Mat → List ℚ × List ℚ
  pdist : Mat → Mat
  perm42 : ℕ → List ℕ
  logspace037 : List ℚ
  gridBest : Mat → List ℚ → List ℚ → List ℚ → ℚ × ℚ
  predictProba1 : ℚ → ℚ → Mat → List ℚ → Mat → List ℚ
  rocAuc : List ℚ → List ℚ → Option ℚ

/-- Optimizer loop state of JRD_sampling: the torch buffers reachable from the
function, namely the input tensor sharing memory with X, the candidate tensor
Y, its gradient buffer, the Adam moment buffers, the step counter, and a ghost
counter of divergence evaluations. -/
structure OptState where
  Xb : Mat
  Y : Mat
  G : Mat
  m : Mat
  v : Mat
  t : ℕ
  evals : ℕ

/-- One iteration of the JRD_sampling loop: zero the gradient of Y, evaluate
the external divergence and backpropagate its gradient into the buffer, then
perform one elementwise Adam step on Y and the moment buffers. -/
def jrd_body (ext : Ext) (sigma alpha lr : ℚ) (weighted : Bool) (n_rff : Option ℕ)
    (s : OptState) : OptState :=
  let G0 := mat_zeros_like s.Y
  let G1 := mat_mapIdx (fun i j g => g + ext.divGrad s.Xb s.Y sigma alpha weighted n_rff i j) G0
  let t1 := s.t + 1
  let Y1 := mat_mapIdx (fun i j y => (ext.adamUpd lr t1 y (mat_get G1 i j) (mat_get s.m i j) (mat_get s.v i j)).1) s.Y
  let m1 := mat_mapIdx (fun i j mm => (ext.adamUpd lr t1 (mat_get s.Y i j) (mat_get G1 i j) mm (mat_get s.v i j)).2.1) s.m
  let v1 := mat_mapIdx (fun i j vv => (ext.adamUpd lr t1 (mat_get s.Y i j) (mat_get G1 i j) (mat_get s.m i j) vv).2.2) s.v
  { Xb := s.Xb, Y := Y1, G := G1, m := m1, v := v1, t := t1, evals := s.evals + 1 }

/-- Result record of JRD_sampling: the returned point set, the buffer that the
argument X refers to after the call, the advanced random state, and the ghost
counters of divergence evaluations and optimizer steps. -/
structure JRDOut where
  Y : Mat
  Xout : Mat
  rng : ℕ
  evals : ℕ
  steps : ℕ

/-- The initial candidate set of JRD_sampling: a uniform draw from the fixed
hypercube between minus two and two of shape n_samples by d. -/
def jrd_Y0 (stream : ℕ → ℚ) (rng : ℕ) (n_samples d : ℕ) : Mat :=
  np_uniform stream rng (-2) 2 n_samples d

/-- Embedding of JRD_sampling from the notebook: draw the initial candidate
set uniformly in the fixed range, build the Adam optimizer over the single
tensor Y, and run exactly n_iter iterations of the gradient loop. The plot
branch only drives the display and is omitted. -/
def JRD_sampling (ext : Ext) (rng : ℕ) (X : Mat) (n_samples : ℕ) (sigma : ℚ := 1)
    (alpha : ℚ := 101 / 100) (lr : ℚ := 1 / 10) (n_iter : ℕ := 120)
    (weighted : Bool := false) (n_rff : Option ℕ := none) : JRDOut :=
  let d := mat_shape1 X
  let Y0 := jrd_Y0 ext.stream rng n_samples d
  let s0 : OptState :=
    { Xb := X, Y := Y0, G := mat_zeros_like Y0, m := mat_zeros_like Y0,
      v := mat_zeros_like Y0, t := 0, evals := 0 }
  let sF := (List.range n_iter).foldl (fun s _ => jrd_body ext sigma alpha lr weighted n_rff s) s0
  { Y := sF.Y, Xout := sF.Xb, rng := rng + n_samples * d, evals := sF.evals, steps := sF.t }

/-- State of the specification-side gradient descent, without the gradient
buffer of the source loop. -/
structure GDState where
  Y : Mat
  m : Mat
  v : Mat
  t : ℕ

/-- Specification-side step, following the words of the spec: one pure Adam
step on Y driven directly by the gradient of the external divergence at the
current iterate, with no other update of Y. -/
def gd_spec_step (ext : Ext) (X : Mat) (sigma alpha lr : ℚ) (weighted : Bool)
    (n_rff : Option ℕ) (s : GDState) : GDState :=
  let t1 := s.t + 1
  { Y := mat_mapIdx (fun i j y => (ext.adamUpd lr t1 y (ext.divGrad X s.Y sigma alpha weighted n_rff i j) (mat_get s.m i j) (mat_get s.v i j)).1) s.Y,
    m := mat_mapIdx (fun i j mm => (ext.adamUpd lr t1 (mat_get s.Y i j) (ext.divGrad X s.Y sigma alpha weighted n_rff i j) mm (mat_get s.v i j)).2.1) s.m,
    v := mat_mapIdx (fun i j vv => (ext.adamUpd lr t1 (mat_get s.Y i j) (ext.divGrad X s.Y sigma alpha weighted n_rff i j) (mat_get s.m i j) vv).2.2) s.v,
    t := t1 }

/-- Specification-side gradient descent: iterate the pure Adam step from the
given initial candidate set. -/
def gd_spec (ext : Ext) (X : Mat) (sigma alpha lr : ℚ) (weighted : Bool)
    (n_rff : Option ℕ) (Y0 : Mat) (n_iter : ℕ) : Mat :=
  ((List.range n_iter).foldl (fun s _ => gd_spec_step ext X sigma alpha lr weighted n_rff s)
    { Y := Y0, m := mat_zeros_like Y0, v := mat_zeros_like Y0, t := 0 }).Y

/-- Trace events recording the externally visible steps of the pipeline, used
to state ordering and frame properties about train_imbalanced. -/
inductive Ev where
  | loadEv (path : String)
  | scalerFit
  | scalerApply
  | classSplit
  | ttsEv
  | jrdEv (n_samples : ℕ) (sigma : ℚ)
  | gridEv (X : Mat) (Y : List ℚ)
  | fitEv (X : Mat) (Y : List ℚ)
  | aucEv (ok : Bool)
  | sigmaPick (sigma : ℚ)
  | storeAUC (idx : ℕ)
deriving DecidableEq

/-- Kind of an event, with payloads erased. -/
inductive EvK where
  | loadK | scalerFitK | scalerApplyK | splitK | ttsK | jrdK | gridK | fitK | aucK | pickK | storeK
deriving DecidableEq

/-- Erase the payload of an event. -/
def Ev.kind : Ev → EvK
  | .loadEv _ => .loadK
  | .scalerFit => .scalerFitK
  | .scalerApply => .scalerApplyK
  | .classSplit => .splitK
  | .ttsEv => .ttsK
  | .jrdEv _ _ => .jrdK
  | .gridEv _ _ => .gridK
  | .fitEv _ _ => .fitK
  | .aucEv _ => .aucK
  | .sigmaPick _ => .pickK
  | .storeAUC _ => .storeK

/-- Index payload of a store event, nothing for every other event. -/
def storeIdx : Ev → Option ℕ
  | .storeAUC i => some i
  | _ => none

/-- File path of a KEEL fold file. -/
def keel_path (dataset : String) (fold : ℕ) (suffix : String) : String :=
  "./Imbalanced_data/" ++ dataset ++ "-5-" ++ (toString fold) ++ suffix

/-- Embedding of load_dataset: read the two fold tables, take the numeric
columns as the feature matrices, replace the two known label strings in the
last column, and convert both label columns with astype int; the train labels
are one-dimensional while the test labels keep a trailing singleton dimension.
The conversion fails when a label cell converts to no integer. -/
def load_dataset (ext : Ext) (dataset : String) (fold : ℕ) :
    Option (Mat × List ℤ × Mat × List (List ℤ)) :=
  let df := ext.readTable (keel_path dataset fold ("tra.dat"))
  let dftest := ext.readTable (keel_path dataset fold ("tst.dat"))
  let Xtrain := df_numeric_data df
  let Xtest := df_numeric_data dftest
  let ytr := (last_labels df).map label_map
  let yts := (last_labels dftest).map label_map
  match labels_astype ytr, labels_astype yts with
  | some Ytrain, some Ytest1 => some (Xtrain, Ytrain, Xtest, Ytest1.map (fun z => [z]))
  | _, _ => none

/-- Transform of the standard scaler with fitted per-column mean and scale. -/
def scaler_transform (p : List ℚ × List ℚ) (M : Mat) : Mat :=
  M.map (fun row => idxMapFrom (fun j x => (x - p.1.getD j 0) / p.2.getD j 1) 0 row)

/-- Rows of X whose label equals the given one, mirroring boolean indexing. -/
def selectRows (X : Mat) (Y : List ℤ) (lab : ℤ) : Mat :=
  ((X.zip Y).filter (fun p => p.2 == lab)).map Prod.fst

/-- Embedding of the sklearn train_test_split call with test size one quarter
and fixed seed: the seeded permutation is supplied by the environment, the
first ceil of a quarter of the indices form the test part and the rest the
train part. Returns Xtrain, Xtest, Ytrain, Ytest in the order of the source. -/
def train_test_split42 (perm : ℕ → List ℕ) (X : Mat) (Y : List ℤ) :
    Mat × Mat × List ℤ × List ℤ :=
  let n := X.length
  let n_test := (n + 3) / 4
  let idx := perm n
  let testI := idx.take n_test
  let trainI := idx.drop n_test
  (trainI.map (fun i => X.getD i []), testI.map (fun i => X.getD i []),
   trainI.map (fun i => Y.getD i 0), testI.map (fun i => Y.getD i 0))

/-- Per-fold data prepared before the candidate loop of train_imbalanced:
loaded and normalized sets, majority and minority labels and classes, the
inner split and its class parts, and the sigma candidates. -/
structure Prepared where
  Xtrain : Mat
  Ytrain : List ℤ
  Xtest : Mat
  Ytest : List (List ℤ)
  maj_label : ℤ
  min_label : ℤ
  Xmaj : Mat
  Xmin : Mat
  Xtrain_s : Mat
  Xtest_s : Mat
  Ytrain_s : List ℤ
  Ytest_s : List ℤ
  Xmaj_cv : Mat
  Xmin_cv : Mat
  sigma0 : ℚ
  sigmas : List ℚ
deriving Inhabited

/-- The preparatory part of one fold of train_imbalanced, straight from the
source: load, normalize with a scaler fitted on the train part, find majority
and minority labels by bincount, split the classes, make the inner split with
the fixed seed, split its classes, and lay out ten sigma candidates linearly
spaced from a hundredth to three times the median pairwise distance of the
inner majority part. -/
def fold_prepared (ext : Ext) (dataset : String) (fold : ℕ) : Option Prepared :=
  match load_dataset ext dataset fold with
  | none => none
  | some (Xtr0, Ytrain, Xts0, Ytest) =>
    let p := ext.scalerParams Xtr0
    let Xtrain := scaler_transform p Xtr0
    let Xtest := scaler_transform p Xts0
    let bc := np_bincount Ytrain
    let maj_label : ℤ := (np_argmax bc : ℕ)
    let min_label : ℤ := (np_argmin bc : ℕ)
    let Xmaj := selectRows Xtrain Ytrain maj_label
    let Xmin := selectRows Xtrain Ytrain min_label
    let sp := train_test_split42 ext.perm42 Xtrain Ytrain
    let Xmaj_cv := selectRows sp.1 sp.2.2.1 maj_label
    let Xmin_cv := selectRows sp.1 sp.2.2.1 min_label
    let sigma0 := np_nanmedian (ext.pdist Xmaj_cv)
    let sigmas := np_linspace ((1 / 100) * sigma0) (3 * sigma0) 10
    some { Xtrain := Xtrain, Ytrain := Ytrain, Xtest := Xtest, Ytest := Ytest,
           maj_label := maj_label, min_label := min_label, Xmaj := Xmaj, Xmin := Xmin,
           Xtrain_s := sp.1, Xtest_s := sp.2.1, Ytrain_s := sp.2.2.1, Ytest_s := sp.2.2.2,
           Xmaj_cv := Xmaj_cv, Xmin_cv := Xmin_cv, sigma0 := sigma0, sigmas := sigmas }

/-- The prepared data of a fold, with a default for the failure case. -/
def prep (ext : Ext) (dataset : String) (fold : ℕ) : Prepared :=
  (fold_prepared ext dataset fold).getD default

/-- The classification stage shared by the candidate loop and the final fit:
concatenate the subsampled majority part with the minority part, label the two
blocks with the majority and minority labels, grid-search the SVM parameters,
fit the SVM, and score it; the returned option is the outcome of the
roc_auc_score call, together with the emitted events. -/
def fit_and_auc (ext : Ext) (Xmaj_sub Xmin_part : Mat) (maj_label min_label : ℤ)
    (Xev : Mat) (Yev : List ℚ) : Option ℚ × List Ev :=
  let Xtrain_c := Xmaj_sub ++ Xmin_part
  let Ytrain_c := List.replicate Xmaj_sub.length ((maj_label : ℚ)) ++
    List.replicate Xmin_part.length ((min_label : ℚ))
  let C_range := ext.logspace037
  let s0 := np_nanmedian (ext.pdist Xmaj_sub)
  let gamma_range := (np_linspace ((1 / 100) * s0) (3 * s0) 7).map (fun t => 1 / (2 * t ^ 2))
  let best := ext.gridBest Xtrain_c Ytrain_c gamma_range C_range
  let proba := ext.predictProba1 best.1 best.2 Xtrain_c Ytrain_c Xev
  let a := ext.rocAuc Yev proba
  (a, [Ev.gridEv Xtrain_c Ytrain_c, Ev.fitEv Xtrain_c Ytrain_c, Ev.aucEv a.isSome])

/-- Outcome of one candidate of the nested cross-validation. -/
structure CandOut where
  aucOpt : Option ℚ
  rng : ℕ
  trace : List Ev

/-- Random draws consumed by one candidate of the nested loop. -/
def cand_rng_delta (p : Prepared) : ℕ := p.Xmin_cv.length * mat_shape1 p.Xmaj_cv

/-- One candidate of the nested cross-validation: subsample the inner majority
part to the size of the inner minority part with the candidate sigma, then run
the shared classification stage against the inner test split. -/
def cand_step (ext : Ext) (p : Prepared) (n_rff : Option ℕ) (rng : ℕ) (sg : ℚ) : CandOut :=
  let jrd := JRD_sampling ext rng p.Xmaj_cv p.Xmin_cv.length sg (101 / 100) (1 / 10) 120 true n_rff
  let fa := fit_and_auc ext jrd.Y p.Xmin_cv p.maj_label p.min_label p.Xtest_s
    (p.Ytest_s.map (fun z => (z : ℚ)))
  { aucOpt := fa.1, rng := jrd.rng, trace := Ev.jrdEv p.Xmin_cv.length sg :: fa.2 }

/-- The guarded assignment of one candidate score: a successful score is
stored at the candidate index, a ValueError leaves the array unchanged. -/
def upd_at (aucs : List ℚ) (i : ℕ) : Option ℚ → List ℚ
  | some v => aucs.set i v
  | none => aucs

/-- The enumerate loop over the sigma candidates: the cross-validation scores
start at zero, a candidate whose scoring raises ValueError keeps its zero and
the loop continues, every successful candidate stores its score at its index. -/
def nested_cv_go (ext : Ext) (p : Prepared) (n_rff : Option ℕ) :
    List ℚ → ℕ → List ℚ → ℕ → List Ev → List ℚ × ℕ × List Ev
  | [], _, aucs, rng, tr => (aucs, rng, tr)
  | sg :: rest, i, aucs, rng, tr =>
    let c := cand_step ext p n_rff rng sg
    nested_cv_go ext p n_rff rest (i + 1) (upd_at aucs i c.aucOpt) c.rng (tr ++ c.trace)

/-- The nested cross-validation over all sigma candidates. -/
def nested_cv (ext : Ext) (p : Prepared) (n_rff : Option ℕ) (rng : ℕ) :
    List ℚ × ℕ × List Ev :=
  nested_cv_go ext p n_rff p.sigmas 0 (np_zeros p.sigmas.length) rng []

/-- The sigma used for the final subsampling: the candidate at the argmax of
the nested cross-validation scores. -/
def fold_sigma (sigmas AUC_cv : List ℚ) : ℚ := sigmas.getD (np_argmax AUC_cv) 0

/-- Outcome of one fold: the final score when no exception escaped, the random
state after the fold, and the trace. -/
structure FoldOut where
  auc : Option ℚ
  rng : ℕ
  trace : List Ev

/-- The two load events of a fold. -/
def loadEvents (dataset : String) (fold : ℕ) : List Ev :=
  [Ev.loadEv (keel_path dataset fold ("tra.dat")), Ev.loadEv (keel_path dataset fold ("tst.dat"))]

/-- One fold of train_imbalanced: prepare the data, run the nested loop, pick
the best sigma, subsample the full majority class with it, and run the shared
classification stage against the fold test set; the final roc_auc_score call
is not guarded, so its failure is the failure of the fold. -/
def processFold (ext : Ext) (dataset : String) (n_rff : Option ℕ) (fold : ℕ) (rng : ℕ) : FoldOut :=
  match fold_prepared ext dataset fold with
  | none => { auc := none, rng := rng, trace := loadEvents dataset fold }
  | some p =>
    let r := nested_cv ext p n_rff rng
    let sg := fold_sigma p.sigmas r.1
    let jrd := JRD_sampling ext r.2.1 p.Xmaj p.Xmin.length sg (101 / 100) (1 / 10) 120 true n_rff
    let fa := fit_and_auc ext jrd.Y p.Xmin p.maj_label p.min_label p.Xtest
      ((p.Ytest.map (fun row => row.getD 0 0)).map (fun z => (z : ℚ)))
    { auc := fa.1, rng := jrd.rng,
      trace := loadEvents dataset fold ++
        [Ev.scalerFit, Ev.scalerApply, Ev.classSplit, Ev.ttsEv] ++ r.2.2 ++
        (Ev.sigmaPick sg :: Ev.jrdEv p.Xmin.length sg :: fa.2) }

/-- The fold loop of train_imbalanced: process the folds in order, store each
score at index fold minus one, and abort with the exception when a fold fails. -/
def ti_go (ext : Ext) (dataset : String) (n_rff : Option ℕ) :
    List ℕ → List ℚ → ℕ → List Ev → (Except Unit (List ℚ)) × List Ev
  | [], aucs, _, tr => (Except.ok aucs, tr)
  | f :: fs, aucs, rng, tr =>
    let fo := processFold ext dataset n_rff f rng
    match fo.auc with
    | none => (Except.error (), tr ++ fo.trace)
    | some a => ti_go ext dataset n_rff fs (aucs.set (f - 1) a) fo.rng (tr ++ fo.trace ++ [Ev.storeAUC (f - 1)])

/-- Embedding of train_imbalanced: a zero-initialized array of five scores,
filled by the five folds in increasing order. -/
def train_imbalanced (ext : Ext) (dataset : String) (rng : ℕ) (n_rff : Option ℕ := none) :
    (Except Unit (List ℚ)) × List Ev :=
  ti_go ext dataset n_rff [1, 2, 3, 4, 5] (np_zeros 5) rng []

/-- The label vectors of the grid-search training sets appearing in a trace. -/
def gridLabels : List Ev → List (List ℚ)
  | [] => []
  | Ev.gridEv _ Y :: rest => Y :: gridLabels rest
  | _ :: rest => gridLabels rest

/-- A small imbalanced table: two majority rows and one minority row. -/
def tblImb : List (List Cell) :=
  [[Cell.num 10, Cell.str (" negative")],
   [Cell.num 20, Cell.str (" negative")],
   [Cell.num 30, Cell.str (" positive")]]

/-- A small table whose two classes have the same number of rows. -/
def tblTie : List (List Cell) :=
  [[Cell.num 10, Cell.str (" negative")],
   [Cell.num 20, Cell.str (" negative")],
   [Cell.num 30, Cell.str (" positive")],
   [Cell.num 40, Cell.str (" positive")]]

/-- A table whose label column holds a plain numeric string. -/
def tblSeven : List (List Cell) :=
  [[Cell.num 1, Cell.str ("7")]]

/-- A concrete environment over a fixed table: constant unit-interval draws,
zero divergence gradient, an Adam rule that keeps the parameter, an identity
scaler, zero pairwise distances, the identity permutation, and a fixed scorer. -/
def extBase (tbl : List (List Cell)) (roc : List ℚ → List ℚ → Option ℚ) : Ext :=
  { stream := fun _ => 1 / 2,
    divGrad := fun _ _ _ _ _ _ _ _ => 0,
    adamUpd := fun _ _ p _ m v => (p, m, v),
    readTable := fun _ => tbl,
    scalerParams := fun _ => ([0], [1]),
    pdist := fun M => M.map (fun _ => M.map (fun _ => 0)),
    perm42 := fun n => List.range n,
    logspace037 := [1, 1, 1, 1, 1, 1, 1],
    gridBest := fun _ _ _ _ => (1, 1),
    predictProba1 := fun _ _ _ _ T => T.map (fun _ => 0),
    rocAuc := roc }

/-- Environment over the imbalanced table with a total scorer. -/
def extImb : Ext := extBase tblImb (fun _ _ => some (1 / 2))

/-- Environment over the tied table with a total scorer. -/
def extTie : Ext := extBase tblTie (fun _ _ => some (1 / 2))

/-- Environment over the imbalanced table whose scorer always raises. -/
def extErr : Ext := extBase tblImb (fun _ _ => none)

/-- Environment over the numeric-label table with a total scorer. -/
def extSeven : Ext := extBase tblSeven (fun _ _ => some (1 / 2))

/-- Event kinds emitted by one candidate of the nested loop. -/
def candKinds : List EvK := [.jrdK, .gridK, .fitK, .aucK]

/-- Event kinds of one successful fold, in program order: load the two fold
files, fit and apply the scaler, split the classes, make the inner split, run
the ten candidates, pick the sigma, subsample, grid-search, fit, and score;
the fold loop then stores the score. -/
def foldKinds : List EvK :=
  [.loadK, .loadK, .scalerFitK, .scalerApplyK, .splitK, .ttsK] ++
  List.join (List.replicate 10 candKinds) ++
  [.pickK, .jrdK, .gridK, .fitK, .aucK]

/-- A grid-search or fit event carries a balanced training set: the two class
labels appear equally often and features and labels agree in length. -/
def BalancedFitEv (maj min : ℤ) (e : Ev) : Prop :=
  ∀ X Y, (e = Ev.gridEv X Y ∨ e = Ev.fitEv X Y) →
    Y.count ((maj : ℚ)) = Y.count ((min : ℚ)) ∧ X.length = Y.length

/-- The random state after the first k folds of train_imbalanced. -/
def folds_rng (ext : Ext) (dataset : String) (n_rff : Option ℕ) (rng : ℕ) : ℕ → ℕ
  | 0 => rng
  | k + 1 => (processFold ext dataset n_rff (k + 1) (folds_rng ext dataset n_rff rng k)).rng

/-- The score computed by fold f of train_imbalanced, at the random state the
preceding folds leave behind. -/
def fold_auc_val (ext : Ext) (dataset : String) (n_rff : Option ℕ) (rng : ℕ) (f : ℕ) : ℚ :=
  (processFold ext dataset n_rff f (folds_rng ext dataset n_rff rng (f - 1))).auc.getD 0

/-! List and matrix helper lemmas. -/

theorem getD_set_self : ∀ (l : List ℚ) (i : ℕ) (v : ℚ), i < l.length → (l.set i v).getD i 0 = v
  | [], i, v, h => absurd h (by simp)
  | _ :: _, 0, v, _ => rfl
  | _ :: xs, i + 1, v, h => getD_set_self xs i v (Nat.lt_of_succ_lt_succ h)

theorem getD_set_ne : ∀ (l : List ℚ) (i j : ℕ) (v : ℚ), i ≠ j → (l.set i v).getD j 0 = l.getD j 0
  | [], _, _, _, _ => rfl
  | _ :: _, 0, 0, _, h => absurd rfl h
  | _ :: _, 0, _ + 1, _, _ => rfl
  | _ :: _, _ + 1, 0, _, _ => rfl
  | _ :: xs, i + 1, j + 1, v, h => getD_set_ne xs i j v (fun e => h (by omega))

theorem idxMapFrom_length (f : ℕ → ℚ → ℚ) : ∀ (j0 : ℕ) (l : List ℚ),
    (idxMapFrom f j0 l).length = l.length
  | _, [] => rfl
  | j0, _ :: xs => by simp [idxMapFrom, idxMapFrom_length f (j0 + 1) xs]

theorem idxMapFrom_getD (f : ℕ → ℚ → ℚ) : ∀ (l : List ℚ) (j0 k : ℕ), k < l.length →
    (idxMapFrom f j0 l).getD k 0 = f (j0 + k) (l.getD k 0)
  | [], _, k, h => absurd h (by simp)
  | x :: xs, j0, 0, _ => by simp [idxMapFrom]
  | x :: xs, j0, k + 1, h => by
    have := idxMapFrom_getD f xs (j0 + 1) k (Nat.lt_of_succ_lt_succ h)
    simpa [idxMapFrom, Nat.add_assoc, Nat.add_comm 1 k] using this

theorem rowsMapIdx_length (f : ℕ → List ℚ → List ℚ) : ∀ (i0 : ℕ) (M : Mat),
    (rowsMapIdx f i0 M).length = M.length
  | _, [] => rfl
  | i0, _ :: rs => by simp [rowsMapIdx, rowsMapIdx_length f (i0 + 1) rs]

theorem rowsMapIdx_getD (f : ℕ → List ℚ → List ℚ) : ∀ (M : Mat) (i0 k : ℕ), k < M.length →
    (rowsMapIdx f i0 M).getD k [] = f (i0 + k) (M.getD k [])
  | [], _, k, h => absurd h (by simp)
  | r :: rs, i0, 0, _ => by simp [rowsMapIdx]
  | r :: rs, i0, k + 1, h => by
    have := rowsMapIdx_getD f rs (i0 + 1) k (Nat.lt_of_succ_lt_succ h)
    simpa [rowsMapIdx, Nat.add_assoc, Nat.add_comm 1 k] using this

theorem mat_mapIdx_length (f : ℕ → ℕ → ℚ → ℚ) (M : Mat) :
    (mat_mapIdx f M).length = M.length :=
  rowsMapIdx_length _ 0 M

theorem mat_mapIdx_shape (f : ℕ → ℕ → ℚ → ℚ) (M : Mat) :
    mat_shape (mat_mapIdx f M) = mat_shape M := by
  unfold mat_mapIdx mat_shape
  suffices H : ∀ (N : Mat) (i0 : ℕ),
      List.map List.length (rowsMapIdx (fun i r => idxMapFrom (fun j x => f i j x) 0 r) i0 N) =
      List.map List.length N by
    exact H M 0
  intro N
  induction N with
  | nil => intro i0; rfl
  | cons r rs ih => intro i0; simp [rowsMapIdx, idxMapFrom_length, ih]

theorem getD_map_length : ∀ (M : Mat) (i : ℕ), i < M.length →
    (M.map List.length).getD i 0 = (M.getD i []).length
  | [], i, h => absurd h (by simp)
  | r :: rs, 0, _ => rfl
  | r :: rs, i + 1, h => getD_map_length rs i (Nat.lt_of_succ_lt_succ h)

theorem shape_eq_length {M N : Mat} (h : mat_shape M = mat_shape N) : M.length = N.length := by
  have := congrArg List.length h
  simpa [mat_shape] using this

theorem shape_eq_row_length {M N : Mat} (h : mat_shape M = mat_shape N) (i : ℕ)
    (hi : i < M.length) : (M.getD i []).length = (N.getD i []).length := by
  have hN : i < N.length := shape_eq_length h ▸ hi
  have h1 := getD_map_length M i hi
  have h2 := getD_map_length N i hN
  have : (M.map List.length).getD i 0 = (N.map List.length).getD i 0 := by
    unfold mat_shape at h; rw [h]
  omega

theorem mat_get_mapIdx (f : ℕ → ℕ → ℚ → ℚ) (M : Mat) (i j : ℕ)
    (hi : i < M.length) (hj : j < (M.getD i []).length) :
    mat_get (mat_mapIdx f M) i j = f i j (mat_get M i j) := by
  unfold mat_get mat_mapIdx
  rw [rowsMapIdx_getD _ M 0 i hi]
  simpa using idxMapFrom_getD (fun j x => f (0 + i) j x) (M.getD i []) 0 j hj

theorem idxMapFrom_congr {f g : ℕ → ℚ → ℚ} : ∀ (l : List ℚ) (j0 : ℕ),
    (∀ j x, j0 ≤ j → j < j0 + l.length → f j x = g j x) →
    idxMapFrom f j0 l = idxMapFrom g j0 l
  | [], _, _ => rfl
  | x :: xs, j0, h => by
    simp only [idxMapFrom]
    congr 1
    · exact h j0 x (Nat.le_refl _) (by simp)
    · exact idxMapFrom_congr xs (j0 + 1) (fun j x hj1 hj2 => h j x (by omega) (by simpa using by omega))

theorem mat_mapIdx_congr {f g : ℕ → ℕ → ℚ → ℚ} (M : Mat)
    (h : ∀ i j x, i < M.length → j < (M.getD i []).length → f i j x = g i j x) :
    mat_mapIdx f M = mat_mapIdx g M := by
  unfold mat_mapIdx
  suffices H : ∀ (N : Mat) (i0 : ℕ),
      (∀ i j x, i0 ≤ i → i < i0 + N.length → j < (N.getD (i - i0) []).length → f i j x = g i j x) →
      rowsMapIdx (fun i r => idxMapFrom (fun j x => f i j x) 0 r) i0 N =
      rowsMapIdx (fun i r => idxMapFrom (fun j x => g i j x) 0 r) i0 N by
    apply H M 0
    intro i j x _ h2 h3
    exact h i j x (by simpa using h2) (by simpa using h3)
  intro N
  induction N with
  | nil => intro i0 _; rfl
  | cons r rs ih =>
    intro i0 hh
    simp only [rowsMapIdx]
    congr 1
    · apply idxMapFrom_congr
      intro j x _ hj2
      exact hh i0 j x (Nat.le_refl _) (by simp) (by simpa using hj2)
    · apply ih
      intro i j x hi1 hi2 hj
      refine hh i j x (by omega) (by simp; omega) ?_
      have : i - i0 = (i - (i0 + 1)) + 1 := by omega
      rw [this]
      simpa using hj

theorem mat_zeros_like_shape (M : Mat) : mat_shape (mat_zeros_like M) = mat_shape M := by
  simp [mat_zeros_like, mat_shape]

theorem zeros_row_getD : ∀ (r : List ℚ) (j : ℕ), ((r.map (fun _ => (0 : ℚ))).getD j 0) = 0
  | [], 0 => rfl
  | [], _ + 1 => rfl
  | _ :: xs, 0 => rfl
  | _ :: xs, j + 1 => zeros_row_getD xs j

theorem mat_get_zeros : ∀ (M : Mat) (i j : ℕ), mat_get (mat_zeros_like M) i j = 0
  | [], 0, j => by simp [mat_get, mat_zeros_like]
  | [], _ + 1, j => by simp [mat_get, mat_zeros_like]
  | r :: rs, 0, j => by simpa [mat_get, mat_zeros_like] using zeros_row_getD r j
  | r :: rs, i + 1, j => by
    simpa [mat_get, mat_zeros_like] using mat_get_zeros rs i j

theorem backward_get (grad : ℕ → ℕ → ℚ) (Y : Mat) (i j : ℕ)
    (hi : i < Y.length) (hj : j < (Y.getD i []).length) :
    mat_get (mat_mapIdx (fun i j g => g + grad i j) (mat_zeros_like Y)) i j = grad i j := by
  have hzi : i < (mat_zeros_like Y).length := by
    simpa [shape_eq_length (mat_zeros_like_shape Y)] using hi
  have hzj : j < ((mat_zeros_like Y).getD i []).length := by
    rw [shape_eq_row_length (mat_zeros_like_shape Y) i hzi]
    exact hj
  rw [mat_get_mapIdx _ _ i j hzi hzj, mat_get_zeros, zero_add]

/-! Lemmas about the JRD_sampling loop. -/

theorem jrd_fold_inv (ext : Ext) (sg al lr : ℚ) (w : Bool) (nr : Option ℕ) :
    ∀ (l : List ℕ) (s : OptState),
      (l.foldl (fun s _ => jrd_body ext sg al lr w nr s) s).Xb = s.Xb ∧
      mat_shape (l.foldl (fun s _ => jrd_body ext sg al lr w nr s) s).Y = mat_shape s.Y ∧
      (l.foldl (fun s _ => jrd_body ext sg al lr w nr s) s).t = s.t + l.length ∧
      (l.foldl (fun s _ => jrd_body ext sg al lr w nr s) s).evals = s.evals + l.length
  | [], s => by simp
  | a :: l, s => by
    obtain ⟨h1, h2, h3, h4⟩ := jrd_fold_inv ext sg al lr w nr l (jrd_body ext sg al lr w nr s)
    simp only [List.foldl_cons]
    refine ⟨?_, ?_, ?_, ?_⟩
    · rw [h1]; rfl
    · rw [h2]; simpa [jrd_body] using mat_mapIdx_shape _ s.Y
    · rw [h3]; simp [jrd_body]; omega
    · rw [h4]; simp [jrd_body]; omega

theorem np_uniform_shape (st : ℕ → ℚ) (off : ℕ) (lo hi : ℚ) (r c : ℕ) :
    mat_shape (np_uniform st off lo hi r c) = List.replicate r c := by
  simp only [np_uniform, mat_shape, List.map_map]
  rw [List.eq_replicate]
  constructor
  · simp
  · intro b hb
    simp only [List.mem_map] at hb
    obtain ⟨i, _, hig⟩ := hb
    simpa using hig.symm

theorem shape_replicate_spec {M : Mat} {r c : ℕ} (h : mat_shape M = List.replicate r c) :
    M.length = r ∧ ∀ row ∈ M, row.length = c := by
  constructor
  · have := congrArg List.length h
    simpa [mat_shape] using this
  · intro row hrow
    have hm : row.length ∈ mat_shape M := by
      simp only [mat_shape, List.mem_map]
      exact ⟨row, hrow, rfl⟩
    rw [h] at hm
    exact List.eq_of_mem_replicate hm

theorem JRD_sampling_Y_shape (ext : Ext) (rng : ℕ) (X : Mat) (ns : ℕ) (sg al lr : ℚ)
    (ni : ℕ) (w : Bool) (nr : Option ℕ) :
    mat_shape (JRD_sampling ext rng X ns sg al lr ni w nr).Y =
      List.replicate ns (mat_shape1 X) := by
  simp only [JRD_sampling]
  rw [(jrd_fold_inv ext sg al lr w nr (List.range ni) _).2.1]
  exact np_uniform_shape _ _ _ _ _ _

theorem JRD_sampling_rows (ext : Ext) (rng : ℕ) (X : Mat) (ns : ℕ) (sg al lr : ℚ)
    (ni : ℕ) (w : Bool) (nr : Option ℕ) :
    (JRD_sampling ext rng X ns sg al lr ni w nr).Y.length = ns :=
  (shape_replicate_spec (JRD_sampling_Y_shape ext rng X ns sg al lr ni w nr)).1

theorem JRD_sampling_cols (ext : Ext) (rng : ℕ) (X : Mat) (ns : ℕ) (sg al lr : ℚ)
    (ni : ℕ) (w : Bool) (nr : Option ℕ) :
    ∀ row ∈ (JRD_sampling ext rng X ns sg al lr ni w nr).Y, row.length = mat_shape1 X :=
  (shape_replicate_spec (JRD_sampling_Y_shape ext rng X ns sg al lr ni w nr)).2

theorem JRD_sampling_rng_adv (ext : Ext) (rng : ℕ) (X : Mat) (ns : ℕ) (sg al lr : ℚ)
    (ni : ℕ) (w : Bool) (nr : Option ℕ) :
    (JRD_sampling ext rng X ns sg al lr ni w nr).rng = rng + ns * mat_shape1 X := rfl

theorem JRD_sampling_Xout_eq (ext : Ext) (rng : ℕ) (X : Mat) (ns : ℕ) (sg al lr : ℚ)
    (ni : ℕ) (w : Bool) (nr : Option ℕ) :
    (JRD_sampling ext rng X ns sg al lr ni w nr).Xout = X := by
  simp only [JRD_sampling]
  exact (jrd_fold_inv ext sg al lr w nr (List.range ni) _).1

theorem JRD_sampling_counts (ext : Ext) (rng : ℕ) (X : Mat) (ns : ℕ) (sg al lr : ℚ)
    (ni : ℕ) (w : Bool) (nr : Option ℕ) :
    (JRD_sampling ext rng X ns sg al lr ni w nr).evals = ni ∧
    (JRD_sampling ext rng X ns sg al lr ni w nr).steps = ni := by
  simp only [JRD_sampling]
  obtain ⟨-, -, h3, h4⟩ := jrd_fold_inv ext sg al lr w nr (List.range ni) _
  constructor
  · rw [h4]; simp
  · rw [h3]; simp

/-! Simulation between the source loop body and the pure gradient-descent step. -/

theorem sim_step (ext : Ext) (X : Mat) (sg al lr : ℚ) (w : Bool) (nr : Option ℕ)
    (s : OptState) (g : GDState)
    (hY : s.Y = g.Y) (hm : s.m = g.m) (hv : s.v = g.v) (ht : s.t = g.t) (hX : s.Xb = X)
    (hsm : mat_shape s.m = mat_shape s.Y) (hsv : mat_shape s.v = mat_shape s.Y) :
    (jrd_body ext sg al lr w nr s).Y = (gd_spec_step ext X sg al lr w nr g).Y ∧
    (jrd_body ext sg al lr w nr s).m = (gd_spec_step ext X sg al lr w nr g).m ∧
    (jrd_body ext sg al lr w nr s).v = (gd_spec_step ext X sg al lr w nr g).v ∧
    (jrd_body ext sg al lr w nr s).t = (gd_spec_step ext X sg al lr w nr g).t ∧
    (jrd_body ext sg al lr w nr s).Xb = X ∧
    mat_shape (jrd_body ext sg al lr w nr s).m = mat_shape (jrd_body ext sg al lr w nr s).Y ∧
    mat_shape (jrd_body ext sg al lr w nr s).v = mat_shape (jrd_body ext sg al lr w nr s).Y := by
  have hsm' : mat_shape g.m = mat_shape g.Y := by rw [← hY, ← hm]; exact hsm
  have hsv' : mat_shape g.v = mat_shape g.Y := by rw [← hY, ← hv]; exact hsv
  refine ⟨?_, ?_, ?_, ?_, ?_, ?_, ?_⟩
  · simp only [jrd_body, gd_spec_step, hY, hm, hv, ht, hX]
    apply mat_mapIdx_congr
    intro i j x hi hj
    rw [backward_get _ g.Y i j hi hj]
  · simp only [jrd_body, gd_spec_step, hY, hm, hv, ht, hX]
    apply mat_mapIdx_congr
    intro i j x hi hj
    have hiY : i < g.Y.length := by rw [← shape_eq_length hsm']; exact hi
    have hjY : j < (g.Y.getD i []).length := by rw [← shape_eq_row_length hsm' i hi]; exact hj
    rw [backward_get _ g.Y i j hiY hjY]
  · simp only [jrd_body, gd_spec_step, hY, hm, hv, ht, hX]
    apply mat_mapIdx_congr
    intro i j x hi hj
    have hiY : i < g.Y.length := by rw [← shape_eq_length hsv']; exact hi
    have hjY : j < (g.Y.getD i []).length := by rw [← shape_eq_row_length hsv' i hi]; exact hj
    rw [backward_get _ g.Y i j hiY hjY]
  · simp only [jrd_body, gd_spec_step, ht]
  · simp only [jrd_body, hX]
  · simp only [jrd_body]
    rw [mat_mapIdx_shape, mat_mapIdx_shape]
    exact hsm
  · simp only [jrd_body]
    rw [mat_mapIdx_shape, mat_mapIdx_shape]
    exact hsv

theorem sim_fold (ext : Ext) (X : Mat) (sg al lr : ℚ) (w : Bool) (nr : Option ℕ) :
    ∀ (l : List ℕ) (s : OptState) (g : GDState),
      s.Y = g.Y → s.m = g.m → s.v = g.v → s.t = g.t → s.Xb = X →
      mat_shape s.m = mat_shape s.Y → mat_shape s.v = mat_shape s.Y →
      (l.foldl (fun s _ => jrd_body ext sg al lr w nr s) s).Y =
      (l.foldl (fun g _ => gd_spec_step ext X sg al lr w nr g) g).Y
  | [], s, g, hY, _, _, _, _, _, _ => by simpa using hY
  | a :: l, s, g, hY, hm, hv, ht, hX, hsm, hsv => by
    obtain ⟨h1, h2, h3, h4, h5, h6, h7⟩ :=
      sim_step ext X sg al lr w nr s g hY hm hv ht hX hsm hsv
    simp only [List.foldl_cons]
    exact sim_fold ext X sg al lr w nr l _ _ h1 h2 h3 h4 h5 h6 h7

theorem mat_shape1_eq {X : Mat} {d : ℕ} (h : ∀ row ∈ X, row.length = d) (hne : X ≠ []) :
    mat_shape1 X = d := by
  cases X with
  | nil => exact absurd rfl hne
  | cons r rs => exact h r (by simp)

theorem getD_map_range {α : Type} (f : ℕ → α) (r i : ℕ) (d : α) (h : i < r) :
    ((List.range r).map f).getD i d = f i := by
  simp [List.getD_eq_getElem?_getD, List.getElem?_map, List.getElem?_range, h]

theorem np_uniform_get (st : ℕ → ℚ) (off : ℕ) (lo hi : ℚ) (r c i j : ℕ)
    (hir : i < r) (hjc : j < c) :
    mat_get (np_uniform st off lo hi r c) i j = lo + (hi - lo) * st (off + (i * c + j)) := by
  unfold mat_get np_uniform
  rw [show ((List.range r).map fun i => (List.range c).map fun j =>
      lo + (hi - lo) * st (off + i * c + j)).getD i [] =
      (List.range c).map (fun j => lo + (hi - lo) * st (off + i * c + j)) from
    getD_map_range _ r i [] hir]
  rw [getD_map_range _ c j 0 hjc]
  ring_nf

/-- Claim C1: for every input point set X of shape n by d and every requested
sample count of at least one, JRD_sampling returns a point set of exactly
n_samples rows and d columns, for every environment (hence regardless of
whether the gradient descent converged). -/
theorem C1_jrd_output_shape (ext : Ext) (rng : ℕ) (X : Mat) (d n_samples : ℕ)
    (sg al lr : ℚ) (ni : ℕ) (w : Bool) (nr : Option ℕ)
    (hd : ∀ row ∈ X, row.length = d) (hne : X ≠ []) (hs : 1 ≤ n_samples) :
    (JRD_sampling ext rng X n_samples sg al lr ni w nr).Y.length = n_samples ∧
    ∀ row ∈ (JRD_sampling ext rng X n_samples sg al lr ni w nr).Y, row.length = d := by
  have h1 := mat_shape1_eq hd hne
  refine ⟨JRD_sampling_rows ext rng X n_samples sg al lr ni w nr, ?_⟩
  intro row hrow
  rw [← h1]
  exact JRD_sampling_cols ext rng X n_samples sg al lr ni w nr row hrow

theorem C1_jrd_output_shape_witness :
    (JRD_sampling extImb 0 [[(0 : ℚ)]] 1).Y.length = 1 ∧
    ∀ row ∈ (JRD_sampling extImb 0 [[(0 : ℚ)]] 1).Y, row.length = 1 :=
  C1_jrd_output_shape extImb 0 [[(0 : ℚ)]] 1 1 1 (101 / 100) (1 / 10) 120 false none
    (by decide) (by decide) (by decide)

/-- Claim C2: JRD_sampling is a direct gradient-descent application of the
external divergence: its result equals iterating, from the random initial
candidate set, the pure Adam step driven by the gradient of the externally
supplied divergence at the current iterate; in each iteration the gradient
buffer is zeroed, the divergence gradient is backpropagated into it, and
exactly one Adam step updates Y, which no other operation updates. -/
theorem C2_jrd_is_gradient_descent (ext : Ext) (rng : ℕ) (X : Mat) (ns : ℕ)
    (sg al lr : ℚ) (ni : ℕ) (w : Bool) (nr : Option ℕ) :
    (JRD_sampling ext rng X ns sg al lr ni w nr).Y =
    gd_spec ext X sg al lr w nr (jrd_Y0 ext.stream rng ns (mat_shape1 X)) ni := by
  simp only [JRD_sampling, gd_spec]
  exact sim_fold ext X sg al lr w nr (List.range ni) _ _ rfl rfl rfl rfl rfl
    (mat_zeros_like_shape _) (mat_zeros_like_shape _)

/-- Claim C7: the subsampling loop always terminates after exactly n_iter
iterations (default 120): the number of divergence evaluations and of Adam
steps both equal n_iter, for every environment and input. -/
theorem C7_jrd_loop_count (ext : Ext) (rng : ℕ) (X : Mat) (ns : ℕ)
    (sg al lr : ℚ) (ni : ℕ) (w : Bool) (nr : Option ℕ) :
    (JRD_sampling ext rng X ns sg al lr ni w nr).evals = ni ∧
    (JRD_sampling ext rng X ns sg al lr ni w nr).steps = ni ∧
    (JRD_sampling ext rng X ns).evals = 120 ∧
    (JRD_sampling ext rng X ns).steps = 120 :=
  ⟨(JRD_sampling_counts ext rng X ns sg al lr ni w nr).1,
   (JRD_sampling_counts ext rng X ns sg al lr ni w nr).2,
   (JRD_sampling_counts ext rng X ns 1 (101 / 100) (1 / 10) 120 false none).1,
   (JRD_sampling_counts ext rng X ns 1 (101 / 100) (1 / 10) 120 false none).2⟩

/-- Claim C8: JRD_sampling leaves its input X unchanged: only Y and the
optimizer buffers are written by the loop, so the buffer that X refers to
after the call holds exactly the values it held before the call. -/
theorem C8_jrd_preserves_X (ext : Ext) (rng : ℕ) (X : Mat) (ns : ℕ)
    (sg al lr : ℚ) (ni : ℕ) (w : Bool) (nr : Option ℕ) :
    (JRD_sampling ext rng X ns sg al lr ni w nr).Xout = X :=
  JRD_sampling_Xout_eq ext rng X ns sg al lr ni w nr

/-- Claim C10: the initial candidate set of JRD_sampling is drawn uniformly
from the fixed hypercube from minus two inclusive to two exclusive in every
coordinate, with shape n_samples by d, depending on X only through its column
count (not on the range its data covers); the draws are consumed from the
ambient global random state at its current offset, which the call advances by
exactly the number of drawn entries and never reseeds. -/
theorem C10_initial_uniform (ext : Ext) (rng ns : ℕ) (X : Mat)
    (sg al lr : ℚ) (ni : ℕ) (w : Bool) (nr : Option ℕ)
    (h : ∀ k, 0 ≤ ext.stream k ∧ ext.stream k < 1) :
    (jrd_Y0 ext.stream rng ns (mat_shape1 X)).length = ns ∧
    (∀ row ∈ jrd_Y0 ext.stream rng ns (mat_shape1 X), row.length = mat_shape1 X) ∧
    (∀ i j, i < ns → j < mat_shape1 X →
      mat_get (jrd_Y0 ext.stream rng ns (mat_shape1 X)) i j =
        -2 + 4 * ext.stream (rng + (i * mat_shape1 X + j)) ∧
      -2 ≤ mat_get (jrd_Y0 ext.stream rng ns (mat_shape1 X)) i j ∧
      mat_get (jrd_Y0 ext.stream rng ns (mat_shape1 X)) i j < 2) ∧
    (∀ X' : Mat, mat_shape1 X' = mat_shape1 X →
      jrd_Y0 ext.stream rng ns (mat_shape1 X') = jrd_Y0 ext.stream rng ns (mat_shape1 X)) ∧
    (JRD_sampling ext rng X ns sg al lr ni w nr).rng = rng + ns * mat_shape1 X := by
  obtain ⟨hl, hc⟩ := shape_replicate_spec (np_uniform_shape ext.stream rng (-2) 2 ns (mat_shape1 X))
  refine ⟨hl, hc, ?_, ?_, JRD_sampling_rng_adv ext rng X ns sg al lr ni w nr⟩
  · intro i j hi hj
    have hg := np_uniform_get ext.stream rng (-2) 2 ns (mat_shape1 X) i j hi hj
    have hfm : mat_get (jrd_Y0 ext.stream rng ns (mat_shape1 X)) i j =
        -2 + 4 * ext.stream (rng + (i * mat_shape1 X + j)) := by
      rw [jrd_Y0, hg]; ring_nf
    refine ⟨hfm, ?_, ?_⟩
    · rw [hfm]
      have := (h (rng + (i * mat_shape1 X + j))).1
      linarith
    · rw [hfm]
      have := (h (rng + (i * mat_shape1 X + j))).2
      linarith
  · intro X' hX'
    rw [hX']

theorem C10_initial_uniform_witness :
    (jrd_Y0 extImb.stream 0 1 (mat_shape1 [[(0 : ℚ)]])).length = 1 ∧
    -2 ≤ mat_get (jrd_Y0 extImb.stream 0 1 (mat_shape1 [[(0 : ℚ)]])) 0 0 ∧
    mat_get (jrd_Y0 extImb.stream 0 1 (mat_shape1 [[(0 : ℚ)]])) 0 0 < 2 := by
  obtain ⟨h1, _, h3, _, _⟩ :=
    C10_initial_uniform extImb 0 1 [[(0 : ℚ)]] 1 (101 / 100) (1 / 10) 120 false none
      (fun k => ⟨by norm_num [extImb, extBase], by norm_num [extImb, extBase]⟩)
  exact ⟨h1, (h3 0 0 (by decide) (by decide)).2.1, (h3 0 0 (by decide) (by decide)).2.2⟩

/-! Lemmas about the nested cross-validation loop. -/

theorem cand_step_rng (ext : Ext) (p : Prepared) (nr : Option ℕ) (rng : ℕ) (sg : ℚ) :
    (cand_step ext p nr rng sg).rng = rng + cand_rng_delta p := rfl

theorem cand_step_kinds (ext : Ext) (p : Prepared) (nr : Option ℕ) (rng : ℕ) (sg : ℚ) :
    (cand_step ext p nr rng sg).trace.map Ev.kind = candKinds := rfl

theorem upd_at_length (aucs : List ℚ) (i : ℕ) (o : Option ℚ) :
    (upd_at aucs i o).length = aucs.length := by
  cases o <;> simp [upd_at]

theorem upd_at_getD_ne (aucs : List ℚ) (i j : ℕ) (o : Option ℚ) (h : i ≠ j) :
    (upd_at aucs i o).getD j 0 = aucs.getD j 0 := by
  cases o with
  | none => rfl
  | some v => exact getD_set_ne aucs i j v h

theorem upd_at_getD_self (aucs : List ℚ) (i : ℕ) (o : Option ℚ) (h : i < aucs.length) :
    (upd_at aucs i o).getD i 0 = o.getD (aucs.getD i 0) := by
  cases o with
  | none => rfl
  | some v => exact getD_set_self aucs i v h

theorem nested_cv_go_len (ext : Ext) (p : Prepared) (nr : Option ℕ) :
    ∀ (L : List ℚ) (i0 : ℕ) (aucs : List ℚ) (rng : ℕ) (tr : List Ev),
      (nested_cv_go ext p nr L i0 aucs rng tr).1.length = aucs.length
  | [], _, _, _, _ => rfl
  | sg :: rest, i0, aucs, rng, tr => by
    simp only [nested_cv_go]
    rw [nested_cv_go_len ext p nr rest (i0 + 1) _ _ _, upd_at_length]

theorem nested_cv_go_rng (ext : Ext) (p : Prepared) (nr : Option ℕ) :
    ∀ (L : List ℚ) (i0 : ℕ) (aucs : List ℚ) (rng : ℕ) (tr : List Ev),
      (nested_cv_go ext p nr L i0 aucs rng tr).2.1 = rng + L.length * cand_rng_delta p
  | [], _, _, _, _ => by simp [nested_cv_go]
  | sg :: rest, i0, aucs, rng, tr => by
    simp only [nested_cv_go]
    rw [nested_cv_go_rng ext p nr rest (i0 + 1) _ _ _, cand_step_rng]
    simp only [List.length_cons]
    ring

theorem nested_cv_go_untouched (ext : Ext) (p : Prepared) (nr : Option ℕ) :
    ∀ (L : List ℚ) (i0 : ℕ) (aucs : List ℚ) (rng : ℕ) (tr : List Ev) (k : ℕ), k < i0 →
      (nested_cv_go ext p nr L i0 aucs rng tr).1.getD k 0 = aucs.getD k 0
  | [], _, _, _, _, _, _ => rfl
  | sg :: rest, i0, aucs, rng, tr, k, hk => by
    simp only [nested_cv_go]
    rw [nested_cv_go_untouched ext p nr rest (i0 + 1) _ _ _ k (by omega)]
    exact upd_at_getD_ne aucs i0 k _ (by omega)

theorem nested_cv_go_entry (ext : Ext) (p : Prepared) (nr : Option ℕ) :
    ∀ (L : List ℚ) (i0 : ℕ) (aucs : List ℚ) (rng : ℕ) (tr : List Ev) (k : ℕ),
      k < L.length → i0 + L.length ≤ aucs.length →
      (nested_cv_go ext p nr L i0 aucs rng tr).1.getD (i0 + k) 0 =
        ((cand_step ext p nr (rng + k * cand_rng_delta p) (L.getD k 0)).aucOpt).getD
          (aucs.getD (i0 + k) 0)
  | [], _, _, _, _, k, hk, _ => absurd hk (by simp)
  | sg :: rest, i0, aucs, rng, tr, 0, hk, hlen => by
    simp only [nested_cv_go, Nat.add_zero, Nat.zero_mul]
    rw [nested_cv_go_untouched ext p nr rest (i0 + 1) _ _ _ i0 (by omega)]
    rw [upd_at_getD_self aucs i0 _ (by simp only [List.length_cons] at hlen; omega)]
    rfl
  | sg :: rest, i0, aucs, rng, tr, k + 1, hk, hlen => by
    simp only [nested_cv_go]
    have hidx : i0 + (k + 1) = (i0 + 1) + k := by omega
    have hrng : (cand_step ext p nr rng sg).rng + k * cand_rng_delta p =
        rng + (k + 1) * cand_rng_delta p := by
      rw [cand_step_rng]; ring
    rw [hidx, nested_cv_go_entry ext p nr rest (i0 + 1) _ _ _ k
      (by simp only [List.length_cons] at hk; omega)
      (by rw [upd_at_length]; simp only [List.length_cons] at hlen; omega)]
    rw [hrng, upd_at_getD_ne aucs i0 _ _ (by omega)]
    rfl

theorem nested_cv_go_kinds (ext : Ext) (p : Prepared) (nr : Option ℕ) :
    ∀ (L : List ℚ) (i0 : ℕ) (aucs : List ℚ) (rng : ℕ) (tr : List Ev),
      (nested_cv_go ext p nr L i0 aucs rng tr).2.2.map Ev.kind =
        tr.map Ev.kind ++ List.join (List.replicate L.length candKinds)
  | [], _, _, _, tr => by simp [nested_cv_go]
  | sg :: rest, i0, aucs, rng, tr => by
    simp only [nested_cv_go]
    rw [nested_cv_go_kinds ext p nr rest (i0 + 1) _ _ _]
    simp [List.map_append, cand_step_kinds, List.replicate_succ, List.append_assoc]

theorem nested_cv_go_events {P : Ev → Prop} (ext : Ext) (p : Prepared) (nr : Option ℕ) :
    ∀ (L : List ℚ) (i0 : ℕ) (aucs : List ℚ) (rng : ℕ) (tr : List Ev),
      (∀ e ∈ tr, P e) →
      (∀ (rng' : ℕ) (sg : ℚ), ∀ e ∈ (cand_step ext p nr rng' sg).trace, P e) →
      ∀ e ∈ (nested_cv_go ext p nr L i0 aucs rng tr).2.2, P e
  | [], _, _, _, tr, htr, _ => by simpa [nested_cv_go] using htr
  | sg :: rest, i0, aucs, rng, tr, htr, hc => by
    simp only [nested_cv_go]
    have htr' : ∀ e ∈ tr ++ (cand_step ext p nr rng sg).trace, P e := by
      intro e he
      rcases List.mem_append.mp he with h | h
      · exact htr e h
      · exact hc rng sg e h
    exact nested_cv_go_events ext p nr rest (i0 + 1) _ _ _ htr' hc

/-! Lemmas about the prepared fold data and numpy helpers. -/

theorem np_zeros_getD : ∀ (n i : ℕ), (np_zeros n).getD i 0 = 0
  | 0, 0 => rfl
  | 0, _ + 1 => rfl
  | _ + 1, 0 => rfl
  | n + 1, i + 1 => np_zeros_getD n i

theorem np_zeros_length (n : ℕ) : (np_zeros n).length = n := by
  simp [np_zeros]

theorem np_linspace_length (a b : ℚ) (n : ℕ) : (np_linspace a b n).length = n := by
  unfold np_linspace
  split_ifs with h0 h1
  · simp [h0]
  · simp [h1]
  · simp

theorem np_linspace_get (a b : ℚ) (n i : ℕ) (h2 : 2 ≤ n) (hi : i < n) :
    (np_linspace a b n).getD i 0 = a + (i : ℚ) * ((b - a) / ((n : ℚ) - 1)) := by
  unfold np_linspace
  rw [if_neg (by omega), if_neg (by omega)]
  exact getD_map_range _ n i 0 hi

theorem fold_prepared_spec (ext : Ext) (ds : String) (f : ℕ) (p : Prepared)
    (h : fold_prepared ext ds f = some p) :
    p.sigma0 = np_nanmedian (ext.pdist p.Xmaj_cv) ∧
    p.sigmas = np_linspace ((1 / 100) * p.sigma0) (3 * p.sigma0) 10 ∧
    p.Xmaj_cv = selectRows p.Xtrain_s p.Ytrain_s p.maj_label ∧
    p.Xmin_cv = selectRows p.Xtrain_s p.Ytrain_s p.min_label ∧
    p.Xtrain_s = (train_test_split42 ext.perm42 p.Xtrain p.Ytrain).1 ∧
    p.Ytrain_s = (train_test_split42 ext.perm42 p.Xtrain p.Ytrain).2.2.1 := by
  unfold fold_prepared at h
  cases hld : load_dataset ext ds f with
  | none => rw [hld] at h; exact absurd h (by simp)
  | some q =>
    obtain ⟨A, B, C, D⟩ := q
    rw [hld] at h
    simp only [Option.some_inj] at h
    subst h
    refine ⟨rfl, rfl, rfl, rfl, rfl, rfl⟩

theorem fold_prepared_sigmas_len (ext : Ext) (ds : String) (f : ℕ) (p : Prepared)
    (h : fold_prepared ext ds f = some p) : p.sigmas.length = 10 := by
  rw [(fold_prepared_spec ext ds f p h).2.1, np_linspace_length]

/-- Claim C3: the single exception guard sits around the candidate scoring of
the nested loop: every entry of the cross-validation score array equals the
outcome of its own candidate with zero as fallback, so a candidate whose
roc_auc_score raises ValueError keeps its initial zero and the loop continues
with the other candidates; the final per-fold roc_auc_score is unguarded, so
its failure propagates out of train_imbalanced as the exception. -/
theorem C3_single_guard (ext : Ext) (ds : String) (nr : Option ℕ) (rng : ℕ) (p : Prepared)
    (hp : fold_prepared ext ds 1 = some p) :
    (∀ i, i < 10 →
      (nested_cv ext p nr rng).1.getD i 0 =
        ((cand_step ext p nr (rng + i * cand_rng_delta p) (p.sigmas.getD i 0)).aucOpt).getD 0) ∧
    (∀ i, i < 10 →
      (cand_step ext p nr (rng + i * cand_rng_delta p) (p.sigmas.getD i 0)).aucOpt = none →
      (nested_cv ext p nr rng).1.getD i 0 = 0) ∧
    ((processFold ext ds nr 1 rng).auc = none →
      (train_imbalanced ext ds rng nr).1 = Except.error ()) := by
  have hlen := fold_prepared_sigmas_len ext ds 1 p hp
  have hmain : ∀ i, i < 10 →
      (nested_cv ext p nr rng).1.getD i 0 =
        ((cand_step ext p nr (rng + i * cand_rng_delta p) (p.sigmas.getD i 0)).aucOpt).getD 0 := by
    intro i hi
    unfold nested_cv
    have h := nested_cv_go_entry ext p nr p.sigmas 0 (np_zeros p.sigmas.length) rng [] i
      (by omega) (by rw [np_zeros_length]; omega)
    rw [np_zeros_getD] at h
    simpa using h
  refine ⟨hmain, ?_, ?_⟩
  · intro i hi hnone
    rw [hmain i hi, hnone]
    rfl
  · intro hA
    simp only [train_imbalanced, ti_go, hA]

theorem C3_single_guard_witness :
    (cand_step extErr (prep extErr ("d") 1) none (0 + 0 * cand_rng_delta (prep extErr ("d") 1))
      ((prep extErr ("d") 1).sigmas.getD 0 0)).aucOpt = none ∧
    (nested_cv extErr (prep extErr ("d") 1) none 0).1.getD 0 0 = 0 ∧
    (train_imbalanced extErr ("d") 0 none).1 = Except.error () := by
  have h0 : (cand_step extErr (prep extErr ("d") 1) none
      (0 + 0 * cand_rng_delta (prep extErr ("d") 1))
      ((prep extErr ("d") 1).sigmas.getD 0 0)).aucOpt = none := rfl
  obtain ⟨-, hb, hc⟩ := C3_single_guard extErr ("d") none 0 (prep extErr ("d") 1) rfl
  exact ⟨h0, hb 0 (by decide) h0, hc rfl⟩

/-! Lemmas about the first-maximum argmax. -/

theorem getD_default_eq : ∀ (l : List ℚ) (k : ℕ) (d1 d2 : ℚ), k < l.length →
    l.getD k d1 = l.getD k d2
  | [], k, _, _, h => absurd h (by simp)
  | x :: xs, 0, _, _, _ => rfl
  | x :: xs, k + 1, d1, d2, h => getD_default_eq xs k d1 d2 (by simpa using h)

theorem np_argmax_lt : ∀ (l : List ℚ), l ≠ [] → np_argmax l < l.length
  | [x], _ => by simp [np_argmax]
  | x :: y :: xs, _ => by
    have ih := np_argmax_lt (y :: xs) (by simp)
    simp only [np_argmax]
    split_ifs
    · simpa using Nat.succ_lt_succ ih
    · simp

theorem np_argmax_max : ∀ (l : List ℚ) (j : ℕ), j < l.length →
    l.getD j 0 ≤ l.getD (np_argmax l) 0
  | [], j, hj => absurd hj (by simp)
  | [x], 0, _ => by simp [np_argmax]
  | [x], j + 1, hj => by simp at hj
  | x :: y :: xs, j, hj => by
    have hlt := np_argmax_lt (y :: xs) (by simp)
    simp only [np_argmax]
    by_cases hc : x < (y :: xs).getD (np_argmax (y :: xs)) x
    · rw [if_pos hc]
      have hc0 : x < (y :: xs).getD (np_argmax (y :: xs)) 0 := by
        rw [← getD_default_eq (y :: xs) _ x 0 hlt]; exact hc
      cases j with
      | zero => exact le_of_lt hc0
      | succ j =>
        have := np_argmax_max (y :: xs) j (by simpa using hj)
        simpa using this
    · rw [if_neg hc]
      have hc0 : (y :: xs).getD (np_argmax (y :: xs)) 0 ≤ x := by
        rw [← getD_default_eq (y :: xs) _ x 0 hlt]; exact le_of_not_lt hc
      cases j with
      | zero => simp
      | succ j =>
        have := np_argmax_max (y :: xs) j (by simpa using hj)
        simp only [List.getD]
        calc ((y :: xs).get? j).getD 0 ≤ (y :: xs).getD (np_argmax (y :: xs)) 0 := this
          _ ≤ x := hc0

theorem np_argmax_first : ∀ (l : List ℚ) (j : ℕ), j < np_argmax l →
    l.getD j 0 < l.getD (np_argmax l) 0
  | [], j, hj => by simp [np_argmax] at hj
  | [x], j, hj => by simp [np_argmax] at hj
  | x :: y :: xs, j, hj => by
    have hlt := np_argmax_lt (y :: xs) (by simp)
    simp only [np_argmax] at hj ⊢
    by_cases hc : x < (y :: xs).getD (np_argmax (y :: xs)) x
    · rw [if_pos hc] at hj ⊢
      have hc0 : x < (y :: xs).getD (np_argmax (y :: xs)) 0 := by
        rw [← getD_default_eq (y :: xs) _ x 0 hlt]; exact hc
      cases j with
      | zero => exact hc0
      | succ j =>
        have := np_argmax_first (y :: xs) j (by omega)
        simpa using this
    · rw [if_neg hc] at hj
      exact absurd hj (by omega)

theorem np_argmax_all_zero (l : List ℚ) (h : ∀ j, j < l.length → l.getD j 0 = 0) :
    np_argmax l = 0 := by
  by_contra hne
  have hpos : 0 < np_argmax l := Nat.pos_of_ne_zero hne
  have hnil : l ≠ [] := by
    intro he
    rw [he] at hpos
    simp [np_argmax] at hpos
  have hlt := np_argmax_lt l hnil
  have hfirst := np_argmax_first l 0 hpos
  rw [h 0 (by omega), h (np_argmax l) hlt] at hfirst
  exact lt_irrefl 0 hfirst

theorem nested_cv_len (ext : Ext) (p : Prepared) (nr : Option ℕ) (rng : ℕ) :
    (nested_cv ext p nr rng).1.length = p.sigmas.length := by
  unfold nested_cv
  rw [nested_cv_go_len, np_zeros_length]

/-- Claim C6: the bandwidth search lays out ten candidate sigmas linearly
spaced between a hundredth of sigma0 and three times sigma0, where sigma0 is
the median pairwise distance of the majority portion of the seeded inner
split; the sigma used for the final subsampling is the candidate at the
argmax of the nested scores, which attains the maximum and is the first such
index, hence index zero and the smallest candidate when all scores are zero. -/
theorem C6_sigma_selection (ext : Ext) (ds : String) (nr : Option ℕ) (rng f : ℕ)
    (p : Prepared) (hp : fold_prepared ext ds f = some p) :
    p.sigma0 = np_nanmedian (ext.pdist (selectRows
      (train_test_split42 ext.perm42 p.Xtrain p.Ytrain).1
      (train_test_split42 ext.perm42 p.Xtrain p.Ytrain).2.2.1 p.maj_label)) ∧
    p.sigmas.length = 10 ∧
    (∀ i, i < 10 → p.sigmas.getD i 0 =
      (1 / 100) * p.sigma0 + (i : ℚ) * ((3 * p.sigma0 - (1 / 100) * p.sigma0) / 9)) ∧
    fold_sigma p.sigmas (nested_cv ext p nr rng).1 =
      p.sigmas.getD (np_argmax (nested_cv ext p nr rng).1) 0 ∧
    np_argmax (nested_cv ext p nr rng).1 < 10 ∧
    (∀ j, j < 10 → (nested_cv ext p nr rng).1.getD j 0 ≤
      (nested_cv ext p nr rng).1.getD (np_argmax (nested_cv ext p nr rng).1) 0) ∧
    (∀ j, j < np_argmax (nested_cv ext p nr rng).1 →
      (nested_cv ext p nr rng).1.getD j 0 <
      (nested_cv ext p nr rng).1.getD (np_argmax (nested_cv ext p nr rng).1) 0) ∧
    ((∀ j, j < 10 → (nested_cv ext p nr rng).1.getD j 0 = 0) → 0 ≤ p.sigma0 →
      np_argmax (nested_cv ext p nr rng).1 = 0 ∧
      ∀ j, j < 10 → fold_sigma p.sigmas (nested_cv ext p nr rng).1 ≤ p.sigmas.getD j 0) := by
  obtain ⟨hs0, hsig, hmaj, -, hxs, hys⟩ := fold_prepared_spec ext ds f p hp
  have hslen : p.sigmas.length = 10 := by rw [hsig, np_linspace_length]
  have halen : (nested_cv ext p nr rng).1.length = 10 := by
    rw [nested_cv_len, hslen]
  have hentry : ∀ i, i < 10 → p.sigmas.getD i 0 =
      (1 / 100) * p.sigma0 + (i : ℚ) * ((3 * p.sigma0 - (1 / 100) * p.sigma0) / 9) := by
    intro i hi
    rw [hsig, np_linspace_get _ _ 10 i (by omega) hi]
    norm_num
  have hne : (nested_cv ext p nr rng).1 ≠ [] := by
    intro he
    rw [he] at halen
    simp at halen
  have hklt : np_argmax (nested_cv ext p nr rng).1 < 10 := by
    have := np_argmax_lt _ hne
    omega
  refine ⟨by rw [hs0, hmaj, hxs, hys], hslen, hentry, rfl, hklt, ?_, ?_, ?_⟩
  · intro j hj
    exact np_argmax_max _ j (by omega)
  · intro j hj
    exact np_argmax_first _ j hj
  · intro hz hs0pos
    have hk0 : np_argmax (nested_cv ext p nr rng).1 = 0 := by
      apply np_argmax_all_zero
      intro j hj
      exact hz j (by omega)
    refine ⟨hk0, ?_⟩
    intro j hj
    rw [fold_sigma, hk0, hentry 0 (by omega), hentry j hj]
    have hstep : 0 ≤ (3 * p.sigma0 - (1 / 100) * p.sigma0) / 9 := by
      have : 0 ≤ 3 * p.sigma0 - (1 / 100) * p.sigma0 := by linarith
      linarith
    have hjcast : (0 : ℚ) ≤ (j : ℚ) := Nat.cast_nonneg j
    nlinarith

theorem C6_sigma_selection_witness :
    (prep extImb ("d") 1).sigmas.length = 10 ∧
    np_argmax (nested_cv extImb (prep extImb ("d") 1) none 0).1 < 10 := by
  obtain ⟨-, h2, -, -, h5, -⟩ :=
    C6_sigma_selection extImb ("d") none 0 1 (prep extImb ("d") 1) rfl
  exact ⟨h2, h5⟩

/-! Balance of the training sets handed to the SVM. -/

theorem count_replicate_self_q (n : ℕ) (a : ℚ) : (List.replicate n a).count a = n := by
  induction n with
  | zero => rfl
  | succ n ih => simp [List.replicate_succ, List.count_cons, ih]

theorem count_replicate_ne_q (n : ℕ) (a b : ℚ) (h : b ≠ a) : (List.replicate n b).count a = 0 := by
  induction n with
  | zero => rfl
  | succ n ih => simp [List.replicate_succ, List.count_cons, ih, h]

theorem balanced_of_other {maj min : ℤ} (e : Ev)
    (h : ∀ X Y, e ≠ Ev.gridEv X Y ∧ e ≠ Ev.fitEv X Y) : BalancedFitEv maj min e := by
  intro X Y hh
  rcases hh with hh | hh
  · exact absurd hh (h X Y).1
  · exact absurd hh (h X Y).2

theorem balanced_of_concat {maj min : ℤ} (A B : Mat) (hlen : A.length = B.length)
    (hne : maj ≠ min) (e : Ev)
    (he : e = Ev.gridEv (A ++ B)
        (List.replicate A.length ((maj : ℚ)) ++ List.replicate B.length ((min : ℚ))) ∨
      e = Ev.fitEv (A ++ B)
        (List.replicate A.length ((maj : ℚ)) ++ List.replicate B.length ((min : ℚ)))) :
    BalancedFitEv maj min e := by
  have hcast : ((maj : ℚ)) ≠ ((min : ℚ)) := by exact_mod_cast hne
  have key : ∀ (Y : List ℚ),
      Y = List.replicate A.length ((maj : ℚ)) ++ List.replicate B.length ((min : ℚ)) →
      Y.count ((maj : ℚ)) = Y.count ((min : ℚ)) := by
    intro Y hY
    subst hY
    rw [List.count_append, List.count_append]
    rw [count_replicate_self_q, count_replicate_self_q]
    rw [count_replicate_ne_q _ _ _ hcast, count_replicate_ne_q _ _ _ hcast.symm]
    omega
  intro X Y h
  rcases he with he | he <;> subst he <;> rcases h with h | h
  · injection h with h1 h2
    subst h1; subst h2
    refine ⟨key _ rfl, by simp [hlen]⟩
  · exact absurd h (by simp)
  · exact absurd h (by simp)
  · injection h with h1 h2
    subst h1; subst h2
    refine ⟨key _ rfl, by simp [hlen]⟩

theorem fit_and_auc_events (ext : Ext) (A B : Mat) (maj min : ℤ) (Xev : Mat) (Yev : List ℚ)
    (hlen : A.length = B.length) (hne : maj ≠ min) :
    ∀ e ∈ (fit_and_auc ext A B maj min Xev Yev).2, BalancedFitEv maj min e := by
  intro e he
  simp only [fit_and_auc, List.mem_cons, List.not_mem_nil, or_false] at he
  rcases he with he | he | he
  · exact balanced_of_concat A B hlen hne e (Or.inl he)
  · exact balanced_of_concat A B hlen hne e (Or.inr he)
  · subst he
    exact balanced_of_other _ (fun X Y => ⟨by simp, by simp⟩)

theorem cand_step_events (ext : Ext) (p : Prepared) (nr : Option ℕ) (rng : ℕ) (sg : ℚ)
    (hne : p.maj_label ≠ p.min_label) :
    ∀ e ∈ (cand_step ext p nr rng sg).trace, BalancedFitEv p.maj_label p.min_label e := by
  intro e he
  simp only [cand_step, List.mem_cons] at he
  rcases he with he | he
  · subst he
    exact balanced_of_other _ (fun X Y => ⟨by simp, by simp⟩)
  · exact fit_and_auc_events ext _ _ _ _ _ _
      (JRD_sampling_rows ext rng p.Xmaj_cv p.Xmin_cv.length sg (101 / 100) (1 / 10) 120 true nr)
      hne e he

theorem processFold_balanced (ext : Ext) (ds : String) (nr : Option ℕ) (f rng : ℕ)
    (p : Prepared) (hp : fold_prepared ext ds f = some p)
    (hne : p.maj_label ≠ p.min_label) :
    ∀ e ∈ (processFold ext ds nr f rng).trace, BalancedFitEv p.maj_label p.min_label e := by
  intro e he
  simp only [processFold, hp, loadEvents, List.cons_append, List.nil_append,
    List.mem_cons, List.mem_append] at he
  rcases he with he | he | he | he | he | he | he | he | he | he
  · subst he; exact balanced_of_other _ (fun X Y => ⟨by simp, by simp⟩)
  · subst he; exact balanced_of_other _ (fun X Y => ⟨by simp, by simp⟩)
  · subst he; exact balanced_of_other _ (fun X Y => ⟨by simp, by simp⟩)
  · subst he; exact balanced_of_other _ (fun X Y => ⟨by simp, by simp⟩)
  · subst he; exact balanced_of_other _ (fun X Y => ⟨by simp, by simp⟩)
  · subst he; exact balanced_of_other _ (fun X Y => ⟨by simp, by simp⟩)
  · exact nested_cv_go_events ext p nr p.sigmas 0 _ rng [] (by simp)
      (fun rng' sg => cand_step_events ext p nr rng' sg hne) e he
  · subst he; exact balanced_of_other _ (fun X Y => ⟨by simp, by simp⟩)
  · subst he; exact balanced_of_other _ (fun X Y => ⟨by simp, by simp⟩)
  · exact fit_and_auc_events ext _ _ _ _ _ _
      (JRD_sampling_rows ext _ p.Xmaj p.Xmin.length _ (101 / 100) (1 / 10) 120 true nr)
      hne e he

/-- Claim C4, amended: provided the majority and minority labels of the fold
differ (the two classes have distinct sample counts, so bincount argmax and
argmin disagree), every training set handed to the SVM — every grid-search and
every fit event of the fold, inside the nested loop and for the final model —
is the concatenation of a subsampled majority part of the size of the minority
part with the minority part, so the two class labels appear with exactly the
same number of samples; on a tie the two parts carry one and the same label. -/
theorem C4_balanced_training_sets (ext : Ext) (ds : String) (nr : Option ℕ) (f rng : ℕ)
    (p : Prepared) (hp : fold_prepared ext ds f = some p)
    (hne : p.maj_label ≠ p.min_label) :
    ∀ X Y, (Ev.gridEv X Y ∈ (processFold ext ds nr f rng).trace ∨
            Ev.fitEv X Y ∈ (processFold ext ds nr f rng).trace) →
      Y.count ((p.maj_label : ℚ)) = Y.count ((p.min_label : ℚ)) ∧ X.length = Y.length := by
  intro X Y h
  rcases h with h | h
  · exact processFold_balanced ext ds nr f rng p hp hne (Ev.gridEv X Y) h X Y (Or.inl rfl)
  · exact processFold_balanced ext ds nr f rng p hp hne (Ev.fitEv X Y) h X Y (Or.inr rfl)

theorem list_cons_head_tail (l : List ℚ) (h : l ≠ []) : l = l.headD 0 :: l.tail := by
  cases l with
  | nil => exact absurd rfl h
  | cons x xs => rfl

theorem nested_cv_go_trace_mono (ext : Ext) (p : Prepared) (nr : Option ℕ) :
    ∀ (L : List ℚ) (i0 : ℕ) (aucs : List ℚ) (rng : ℕ) (tr : List Ev) (e : Ev), e ∈ tr →
      e ∈ (nested_cv_go ext p nr L i0 aucs rng tr).2.2
  | [], _, _, _, _, _, he => he
  | sg :: rest, i0, aucs, rng, tr, e, he => by
    simp only [nested_cv_go]
    exact nested_cv_go_trace_mono ext p nr rest (i0 + 1) _ _ _ e (List.mem_append_left _ he)

theorem processFold_cand1_mem (ext : Ext) (ds : String) (nr : Option ℕ) (f rng : ℕ)
    (p : Prepared) (hp : fold_prepared ext ds f = some p) (hs : p.sigmas ≠ []) :
    ∀ e ∈ (cand_step ext p nr rng (p.sigmas.headD 0)).trace,
      e ∈ (processFold ext ds nr f rng).trace := by
  intro e he
  simp only [processFold, hp]
  rw [List.mem_append, List.mem_append]
  refine Or.inl (Or.inr ?_)
  unfold nested_cv
  rw [list_cons_head_tail p.sigmas hs]
  simp only [nested_cv_go]
  exact nested_cv_go_trace_mono ext p nr _ _ _ _ _ e (List.mem_append_right _ he)

theorem cand_step_grid_mem (ext : Ext) (p : Prepared) (nr : Option ℕ) (rng : ℕ) (sg : ℚ) :
    Ev.gridEv
      ((JRD_sampling ext rng p.Xmaj_cv p.Xmin_cv.length sg (101 / 100) (1 / 10) 120 true nr).Y
        ++ p.Xmin_cv)
      (List.replicate
        (JRD_sampling ext rng p.Xmaj_cv p.Xmin_cv.length sg (101 / 100) (1 / 10) 120 true nr).Y.length
        ((p.maj_label : ℚ)) ++ List.replicate p.Xmin_cv.length ((p.min_label : ℚ)))
      ∈ (cand_step ext p nr rng sg).trace := by
  simp [cand_step, fit_and_auc]

set_option maxRecDepth 100000 in
theorem C4_balanced_training_sets_witness :
    (List.replicate
        (JRD_sampling extImb 0 (prep extImb ("d") 1).Xmaj_cv (prep extImb ("d") 1).Xmin_cv.length
          ((prep extImb ("d") 1).sigmas.headD 0) (101 / 100) (1 / 10) 120 true none).Y.length
        (((prep extImb ("d") 1).maj_label : ℚ)) ++
      List.replicate (prep extImb ("d") 1).Xmin_cv.length
        (((prep extImb ("d") 1).min_label : ℚ))).count (((prep extImb ("d") 1).maj_label : ℚ)) =
    (List.replicate
        (JRD_sampling extImb 0 (prep extImb ("d") 1).Xmaj_cv (prep extImb ("d") 1).Xmin_cv.length
          ((prep extImb ("d") 1).sigmas.headD 0) (101 / 100) (1 / 10) 120 true none).Y.length
        (((prep extImb ("d") 1).maj_label : ℚ)) ++
      List.replicate (prep extImb ("d") 1).Xmin_cv.length
        (((prep extImb ("d") 1).min_label : ℚ))).count (((prep extImb ("d") 1).min_label : ℚ)) :=
  (C4_balanced_training_sets extImb ("d") none 1 0 (prep extImb ("d") 1) rfl (by decide)
    _ _ (Or.inl (processFold_cand1_mem extImb ("d") none 1 0 (prep extImb ("d") 1) rfl
      (by decide) _ (cand_step_grid_mem extImb (prep extImb ("d") 1) none 0
        ((prep extImb ("d") 1).sigmas.headD 0))))).1

set_option maxRecDepth 100000 in
/-- Counterexample to claim C4 as stated: on a dataset whose two classes have
the same number of samples, bincount argmax and argmin coincide, both blocks
of the constructed training set carry that one label, and a grid-search
training set appears in the trace whose label vector is zero zero — dataset
class zero occurs twice in it and dataset class one zero times, not the same
number of samples. -/
theorem C4_balance_counterexample :
    (prep extTie ("d") 1).Ytrain = [0, 0, 1, 1] ∧
    [(0 : ℚ), 0] ∈ gridLabels ((processFold extTie ("d") none 1 0).trace) ∧
    ¬ ([(0 : ℚ), 0].count ((0 : ℚ)) = [(0 : ℚ), 0].count ((1 : ℚ))) :=
  ⟨by decide, by decide, by decide⟩

/-! The five-fold pipeline of train_imbalanced. -/

theorem fit_and_auc_kinds (ext : Ext) (A B : Mat) (mj mn : ℤ) (Xe : Mat) (Ye : List ℚ) :
    (fit_and_auc ext A B mj mn Xe Ye).2.map Ev.kind = [EvK.gridK, EvK.fitK, EvK.aucK] := rfl

theorem processFold_auc_isSome (ext : Ext) (ds : String) (nr : Option ℕ) (f rng : ℕ)
    (hroc : ∀ a b, (ext.rocAuc a b).isSome = true)
    (hp : (fold_prepared ext ds f).isSome = true) :
    (processFold ext ds nr f rng).auc.isSome = true := by
  obtain ⟨p, hp'⟩ := Option.isSome_iff_exists.mp hp
  simp only [processFold, hp', fit_and_auc]
  exact hroc _ _

theorem processFold_kinds (ext : Ext) (ds : String) (nr : Option ℕ) (f rng : ℕ)
    (p : Prepared) (hp : fold_prepared ext ds f = some p) :
    (processFold ext ds nr f rng).trace.map Ev.kind = foldKinds := by
  have h10 := fold_prepared_sigmas_len ext ds f p hp
  have hn : (nested_cv ext p nr rng).2.2.map Ev.kind =
      List.join (List.replicate 10 candKinds) := by
    unfold nested_cv
    rw [nested_cv_go_kinds]
    simp [h10]
  simp only [processFold, hp, loadEvents, List.map_append, List.map_cons, hn, fit_and_auc_kinds]
  simp [foldKinds, Ev.kind]

theorem storeIdx_none_of_kind (e : Ev) (h : e.kind ≠ EvK.storeK) : storeIdx e = none := by
  cases e <;> first | rfl | exact absurd rfl h

theorem filterMap_none_of_all {α β : Type} (f : α → Option β) :
    ∀ (l : List α), (∀ a ∈ l, f a = none) → l.filterMap f = []
  | [], _ => rfl
  | a :: l, h => by
    rw [List.filterMap_cons, h a (by simp)]
    exact filterMap_none_of_all f l (fun a ha => h a (by simp [ha]))

theorem processFold_no_store (ext : Ext) (ds : String) (nr : Option ℕ) (f rng : ℕ)
    (p : Prepared) (hp : fold_prepared ext ds f = some p) :
    (processFold ext ds nr f rng).trace.filterMap storeIdx = [] := by
  apply filterMap_none_of_all
  intro e he
  apply storeIdx_none_of_kind
  intro hk
  have hm : EvK.storeK ∈ (processFold ext ds nr f rng).trace.map Ev.kind := by
    rw [← hk]
    exact List.mem_map_of_mem _ he
  rw [processFold_kinds ext ds nr f rng p hp] at hm
  exact absurd hm (by decide)

theorem ti_go_cons_some (ext : Ext) (ds : String) (nr : Option ℕ) (f : ℕ) (fs : List ℕ)
    (aucs : List ℚ) (rng : ℕ) (tr : List Ev) (a : ℚ)
    (h : (processFold ext ds nr f rng).auc = some a) :
    ti_go ext ds nr (f :: fs) aucs rng tr =
      ti_go ext ds nr fs (aucs.set (f - 1) a) (processFold ext ds nr f rng).rng
        (tr ++ (processFold ext ds nr f rng).trace ++ [Ev.storeAUC (f - 1)]) := by
  simp only [ti_go, h]

set_option maxRecDepth 100000 in
/-- Claim C5: when every fold loads and the scorer never raises, the folds are
processed in increasing order one through five — the trace is five identical
per-fold event patterns (load both fold files, fit and apply the scaler, split
the classes, make the inner split, run the ten candidates, pick sigma,
subsample, grid-search, fit, score, store) and the store indices are zero to
four in order — and train_imbalanced returns exactly five scores, the one of
fold f at index f minus one. -/
theorem C5_fold_pipeline (ext : Ext) (ds : String) (nr : Option ℕ) (rng : ℕ)
    (hroc : ∀ a b, (ext.rocAuc a b).isSome = true)
    (hp : ∀ f, f ∈ [1, 2, 3, 4, 5] → (fold_prepared ext ds f).isSome = true) :
    (∃ res, (train_imbalanced ext ds rng nr).1 = Except.ok res ∧ res.length = 5 ∧
      ∀ f, f ∈ [1, 2, 3, 4, 5] → res.getD (f - 1) 0 = fold_auc_val ext ds nr rng f) ∧
    (train_imbalanced ext ds rng nr).2.map Ev.kind =
      List.join (List.replicate 5 (foldKinds ++ [EvK.storeK])) ∧
    (train_imbalanced ext ds rng nr).2.filterMap storeIdx = [0, 1, 2, 3, 4] := by
  obtain ⟨p1, hp1⟩ := Option.isSome_iff_exists.mp (hp 1 (by decide))
  obtain ⟨p2, hp2⟩ := Option.isSome_iff_exists.mp (hp 2 (by decide))
  obtain ⟨p3, hp3⟩ := Option.isSome_iff_exists.mp (hp 3 (by decide))
  obtain ⟨p4, hp4⟩ := Option.isSome_iff_exists.mp (hp 4 (by decide))
  obtain ⟨p5, hp5⟩ := Option.isSome_iff_exists.mp (hp 5 (by decide))
  obtain ⟨a1, ha1⟩ := Option.isSome_iff_exists.mp
    (processFold_auc_isSome ext ds nr 1 rng hroc (hp 1 (by decide)))
  obtain ⟨a2, ha2⟩ := Option.isSome_iff_exists.mp
    (processFold_auc_isSome ext ds nr 2 (folds_rng ext ds nr rng 1) hroc (hp 2 (by decide)))
  obtain ⟨a3, ha3⟩ := Option.isSome_iff_exists.mp
    (processFold_auc_isSome ext ds nr 3 (folds_rng ext ds nr rng 2) hroc (hp 3 (by decide)))
  obtain ⟨a4, ha4⟩ := Option.isSome_iff_exists.mp
    (processFold_auc_isSome ext ds nr 4 (folds_rng ext ds nr rng 3) hroc (hp 4 (by decide)))
  obtain ⟨a5, ha5⟩ := Option.isSome_iff_exists.mp
    (processFold_auc_isSome ext ds nr 5 (folds_rng ext ds nr rng 4) hroc (hp 5 (by decide)))
  have e1 : (processFold ext ds nr 1 rng).rng = folds_rng ext ds nr rng 1 := rfl
  have e2 : (processFold ext ds nr 2 (folds_rng ext ds nr rng 1)).rng =
      folds_rng ext ds nr rng 2 := rfl
  have e3 : (processFold ext ds nr 3 (folds_rng ext ds nr rng 2)).rng =
      folds_rng ext ds nr rng 3 := rfl
  have e4 : (processFold ext ds nr 4 (folds_rng ext ds nr rng 3)).rng =
      folds_rng ext ds nr rng 4 := rfl
  have hv1 : fold_auc_val ext ds nr rng 1 = a1 := by
    unfold fold_auc_val
    rw [show folds_rng ext ds nr rng (1 - 1) = rng from rfl, ha1]
    rfl
  have hv2 : fold_auc_val ext ds nr rng 2 = a2 := by
    unfold fold_auc_val
    rw [show (2 : ℕ) - 1 = 1 from rfl, ha2]
    rfl
  have hv3 : fold_auc_val ext ds nr rng 3 = a3 := by
    unfold fold_auc_val
    rw [show (3 : ℕ) - 1 = 2 from rfl, ha3]
    rfl
  have hv4 : fold_auc_val ext ds nr rng 4 = a4 := by
    unfold fold_auc_val
    rw [show (4 : ℕ) - 1 = 3 from rfl, ha4]
    rfl
  have hv5 : fold_auc_val ext ds nr rng 5 = a5 := by
    unfold fold_auc_val
    rw [show (5 : ℕ) - 1 = 4 from rfl, ha5]
    rfl
  simp only [train_imbalanced]
  rw [ti_go_cons_some ext ds nr 1 _ _ _ _ a1 ha1, e1,
    ti_go_cons_some ext ds nr 2 _ _ _ _ a2 ha2, e2,
    ti_go_cons_some ext ds nr 3 _ _ _ _ a3 ha3, e3,
    ti_go_cons_some ext ds nr 4 _ _ _ _ a4 ha4, e4,
    ti_go_cons_some ext ds nr 5 _ _ _ _ a5 ha5]
  simp only [ti_go]
  refine ⟨⟨_, rfl, rfl, ?_⟩, ?_, ?_⟩
  · intro f hf
    fin_cases hf
    · rw [hv1]; rfl
    · rw [hv2]; rfl
    · rw [hv3]; rfl
    · rw [hv4]; rfl
    · rw [hv5]; rfl
  · simp only [List.map_append, List.map_cons, List.map_nil, List.nil_append,
      processFold_kinds ext ds nr 1 _ p1 hp1, processFold_kinds ext ds nr 2 _ p2 hp2,
      processFold_kinds ext ds nr 3 _ p3 hp3, processFold_kinds ext ds nr 4 _ p4 hp4,
      processFold_kinds ext ds nr 5 _ p5 hp5]
    decide
  · simp only [List.filterMap_append, List.nil_append,
      processFold_no_store ext ds nr 1 _ p1 hp1, processFold_no_store ext ds nr 2 _ p2 hp2,
      processFold_no_store ext ds nr 3 _ p3 hp3, processFold_no_store ext ds nr 4 _ p4 hp4,
      processFold_no_store ext ds nr 5 _ p5 hp5]
    decide

set_option maxRecDepth 100000 in
theorem C5_fold_pipeline_witness :
    (train_imbalanced extImb ("d") 0 none).2.filterMap storeIdx = [0, 1, 2, 3, 4] :=
  (C5_fold_pipeline extImb ("d") none 0 (fun _ _ => rfl) (by decide)).2.2

/-! Label handling of load_dataset. -/

theorem labels_astype_length : ∀ (l : List Cell) (zs : List ℤ),
    labels_astype l = some zs → zs.length = l.length
  | [], zs, h => by
    simp only [labels_astype, Option.some_inj] at h
    subst h
    rfl
  | c :: cs, zs, h => by
    simp only [labels_astype] at h
    cases hc : cell_astype_int c with
    | none => rw [hc] at h; exact absurd h (by simp)
    | some z =>
      rw [hc] at h
      cases hcs : labels_astype cs with
      | none => rw [hcs] at h; exact absurd h (by simp)
      | some zs' =>
        rw [hcs] at h
        simp only [Option.some_inj] at h
        subst h
        simpa using labels_astype_length cs zs' hcs

theorem labels_astype_none_iff : ∀ (l : List Cell),
    labels_astype l = none ↔ ∃ c ∈ l, cell_astype_int c = none
  | [] => by
    constructor
    · intro h
      exact absurd h (by simp [labels_astype])
    · rintro ⟨c, hc, -⟩
      exact absurd hc (by simp)
  | c :: cs => by
    constructor
    · intro h
      by_cases hc : cell_astype_int c = none
      · exact ⟨c, by simp, hc⟩
      · obtain ⟨z, hz⟩ := Option.ne_none_iff_exists'.mp hc
        cases hcs : labels_astype cs with
        | none =>
          obtain ⟨c', hc', hn⟩ := (labels_astype_none_iff cs).mp hcs
          exact ⟨c', by simp [hc'], hn⟩
        | some zs =>
          simp only [labels_astype, hz, hcs] at h
          exact absurd h (by simp)
    · rintro ⟨c', hc', hn⟩
      rcases List.mem_cons.mp hc' with hc' | hc'
      · subst hc'
        cases hcs : labels_astype cs <;> simp [labels_astype, hn, hcs]
      · have hnone : labels_astype cs = none := (labels_astype_none_iff cs).mpr ⟨c', hc', hn⟩
        cases hc : cell_astype_int c <;> simp [labels_astype, hc, hnone]

theorem load_dataset_spec (ext : Ext) (ds : String) (f : ℕ)
    (X1 : Mat) (Y1 : List ℤ) (X2 : Mat) (Y2 : List (List ℤ))
    (h : load_dataset ext ds f = some (X1, Y1, X2, Y2)) :
    labels_astype ((last_labels (ext.readTable (keel_path ds f ("tra.dat")))).map label_map) =
      some Y1 ∧
    (∃ Yt1, labels_astype
        ((last_labels (ext.readTable (keel_path ds f ("tst.dat")))).map label_map) = some Yt1 ∧
      Y2 = Yt1.map (fun z => [z])) := by
  simp only [load_dataset] at h
  cases h1 : labels_astype ((last_labels (ext.readTable (keel_path ds f ("tra.dat")))).map label_map) with
  | none => rw [h1] at h; exact absurd h (by simp)
  | some Ytr =>
    cases h2 : labels_astype ((last_labels (ext.readTable (keel_path ds f ("tst.dat")))).map label_map) with
    | none => rw [h1, h2] at h; exact absurd h (by simp)
    | some Yts =>
      rw [h1, h2] at h
      simp only [Option.some_inj, Prod.mk.injEq] at h
      obtain ⟨-, hY1, -, hY2⟩ := h
      subst hY1
      exact ⟨rfl, ⟨Yts, rfl, hY2.symm⟩⟩

/-- Claim C9, amended: load_dataset maps exactly the label strings with a
leading space to one and zero and leaves every other cell unmapped; both label
outputs are converted with astype int, the train labels one-dimensional of the
row count, the test labels with a trailing singleton dimension; the conversion
fails exactly when some label cell converts to no integer — an unmapped string
fails when it does not itself parse as an integer, while a numeric label
string converts successfully. -/
theorem C9_load_dataset (ext : Ext) (ds : String) (f : ℕ) :
    (label_map (Cell.str (" positive")) = Cell.num 1 ∧
     label_map (Cell.str (" negative")) = Cell.num 0 ∧
     ∀ s, s ≠ " positive" → s ≠ " negative" → label_map (Cell.str s) = Cell.str s) ∧
    (∀ s, cell_astype_int (Cell.str s) = str_to_int s) ∧
    (∀ X1 Y1 X2 Y2, load_dataset ext ds f = some (X1, Y1, X2, Y2) →
      Y1.length = (ext.readTable (keel_path ds f ("tra.dat"))).length ∧
      Y2.length = (ext.readTable (keel_path ds f ("tst.dat"))).length ∧
      ∀ row ∈ Y2, row.length = 1) ∧
    (load_dataset ext ds f = none ↔
      ((∃ c ∈ (last_labels (ext.readTable (keel_path ds f ("tra.dat")))).map label_map,
        cell_astype_int c = none) ∨
       (∃ c ∈ (last_labels (ext.readTable (keel_path ds f ("tst.dat")))).map label_map,
        cell_astype_int c = none))) := by
  refine ⟨⟨by decide, by decide, ?_⟩, fun s => rfl, ?_, ?_⟩
  · intro s h1 h2
    simp [label_map, h1, h2]
  · intro X1 Y1 X2 Y2 h
    obtain ⟨htr, Yts, hts, hY2⟩ := load_dataset_spec ext ds f X1 Y1 X2 Y2 h
    have l1 := labels_astype_length _ _ htr
    have l2 := labels_astype_length _ _ hts
    refine ⟨by simpa [last_labels] using l1, ?_, ?_⟩
    · rw [hY2]
      simpa [last_labels] using l2
    · intro row hrow
      rw [hY2] at hrow
      obtain ⟨z, -, hz⟩ := List.mem_map.mp hrow
      rw [← hz]
      rfl
  · simp only [load_dataset]
    cases h1 : labels_astype ((last_labels (ext.readTable (keel_path ds f ("tra.dat")))).map label_map) with
    | none =>
      simp only []
      constructor
      · intro _
        exact Or.inl ((labels_astype_none_iff _).mp h1)
      · intro _; trivial
    | some Ytr =>
      cases h2 : labels_astype ((last_labels (ext.readTable (keel_path ds f ("tst.dat")))).map label_map) with
      | none =>
        simp only []
        constructor
        · intro _
          exact Or.inr ((labels_astype_none_iff _).mp h2)
        · intro _; trivial
      | some Yts =>
        simp only []
        constructor
        · intro hcontra
          exact absurd hcontra (by simp)
        · rintro (hc | hc)
          · have := (labels_astype_none_iff _).mpr hc
            rw [h1] at this
            exact absurd this (by simp)
          · have := (labels_astype_none_iff _).mpr hc
            rw [h2] at this
            exact absurd this (by simp)

set_option maxRecDepth 100000 in
theorem C9_load_dataset_witness :
    ([(0 : ℤ), 0, 1].length = (extImb.readTable (keel_path ("d") 1 ("tra.dat"))).length) ∧
    ∀ row ∈ ([[(0 : ℤ)], [0], [1]] : List (List ℤ)), row.length = 1 := by
  have h := (C9_load_dataset extImb ("d") 1).2.2.1 [[10], [20], [30]] [0, 0, 1]
    [[10], [20], [30]] [[0], [0], [1]] (by decide)
  exact ⟨h.1, h.2.2⟩

set_option maxRecDepth 100000 in
/-- Counterexample to claim C9 as stated: a file whose label column holds the
plain numeric string seven is left unmapped yet the integer conversion
succeeds, returning label seven — it does not make the conversion fail. -/
theorem C9_numeric_label_counterexample :
    load_dataset extSeven ("d") 1 = some ([[1]], [7], [[1]], [[7]]) ∧
    ("7") ≠ " positive" ∧ ("7") ≠ " negative" :=
  ⟨by decide, by decide, by decide⟩

end RJRD
